import Mathlib

/-!
Shallow embedding of the Rummikub engine (server core) and verification of
its specification claims.

Source files embedded:
- `src/server/src/game/Tile.ts` (tile data model)
- `src/server/src/game/MeldValidator.ts` (run/group validation, points)
- `src/server/src/game/Pool.ts` (draw pile)
- `src/server/src/game/GameState.ts` (turn engine)

TypeScript `number` is modelled as `Int`; tile ids (nanoid strings) as
`String` supplied by an id generator; `Math.random` as an oracle
`rand : Nat → Nat`; the JS `Map` plus the separate `playerOrder` array as an
association list plus a list of ids; JSON deep copies are value copies,
which is the identity in a purely functional embedding.
-/

/-- Tile colors: `'red' | 'blue' | 'yellow' | 'black'` (shared/src/index.ts). -/
inductive TileColor where
  | red
  | blue
  | yellow
  | black
deriving DecidableEq, Repr

/-- `Tile` record: id, color, number (1-13, 0 for jokers), joker flag. -/
structure Tile where
  id : String
  color : TileColor
  number : Int
  isJoker : Bool
deriving DecidableEq, Repr

/-- `Meld`: id plus an ordered list of tiles. -/
structure Meld where
  id : String
  tiles : List Tile
deriving DecidableEq, Repr

/-- Ordering used by `.sort((a, b) => a.number - b.number)` in
MeldValidator.ts: ascending by `number`. -/
def numLE (a b : Tile) : Prop := a.number ≤ b.number

instance : DecidableRel numLE := fun a b => Int.decLe a.number b.number

instance : IsTotal Tile numLE := ⟨fun a b => Int.le_total a.number b.number⟩

instance : IsTrans Tile numLE := ⟨fun _ _ _ h h' => le_trans h h'⟩

/-- The duplicate scan in `isValidRun`: for i in [1, len), fail when
`sorted[i].number === sorted[i-1].number`. -/
def hasAdjDup : List Tile → Bool
  | a :: b :: rest => a.number == b.number || hasAdjDup (b :: rest)
  | _ => false

/-- `isValidRun` (MeldValidator.ts lines 10-68), translated branch by
branch.  The sort of the non-jokers is modelled by a stable structural
sort on `number`; only numbers of the sorted list are consulted. -/
def isValidRun (tiles : List Tile) : Bool :=
  if tiles.length < 3 then false
  else
    match tiles.filter (fun t => !t.isJoker) with
    | [] => true
    | nj0 :: njRest =>
      let nonJokers := nj0 :: njRest
      let color := nj0.color
      if !(nonJokers.all (fun t => t.color == color)) then false
      else
        let sorted := List.insertionSort numLE nonJokers
        if hasAdjDup sorted then false
        else
          let minNum := (sorted.headD nj0).number
          let maxNum := (sorted.getLastD nj0).number
          let jokerCount : Int := (tiles.length : Int) - (nonJokers.length : Int)
          let expectedLength : Int := maxNum - minNum + 1
          if minNum < 1 || maxNum > 13 then false
          else
            let gaps : Int := expectedLength - (nonJokers.length : Int)
            if gaps < 0 || gaps > jokerCount then false
            else
              let extraJokers : Int := jokerCount - gaps
              let potentialMin : Int := minNum - extraJokers
              let leftExtend : Int :=
                max 0 (if 1 - potentialMin < 0 then extraJokers
                       else min extraJokers (minNum - 1))
              let rightExtend : Int := extraJokers - leftExtend
              if maxNum + rightExtend > 13 then
                let rightExtend2 : Int := 13 - maxNum
                let leftExtend2 : Int := extraJokers - rightExtend2
                if minNum - leftExtend2 < 1 then false
                else (tiles.length : Int) == expectedLength + extraJokers
              else (tiles.length : Int) == expectedLength + extraJokers

/-- `isValidGroup` (MeldValidator.ts lines 71-87).  `new Set(colors).size`
is the number of distinct colors, i.e. the length of the deduplicated
color list. -/
def isValidGroup (tiles : List Tile) : Bool :=
  if tiles.length < 3 || tiles.length > 4 then false
  else
    match tiles.filter (fun t => !t.isJoker) with
    | [] => true
    | nj0 :: njRest =>
      let nonJokers := nj0 :: njRest
      let number := nj0.number
      if !(nonJokers.all (fun t => t.number == number)) then false
      else
        let colors := (nonJokers.map (fun t => t.color)).dedup
        if colors.length ≠ nonJokers.length then false
        else tiles.length ≤ 4

/-- `isValidMeld` (MeldValidator.ts line 90). -/
def isValidMeld (meld : Meld) : Bool :=
  isValidRun meld.tiles || isValidGroup meld.tiles

/-- First character of the color name, as used by the error renderer
(`t.color[0]`): note blue and black both render as "b". -/
def colorInitial : TileColor → String
  | .red => "r"
  | .blue => "b"
  | .yellow => "y"
  | .black => "b"

/-- Compact tile code used in `validateBoard` error messages. -/
def tileCode (t : Tile) : String :=
  if t.isJoker then "J" else colorInitial t.color ++ toString t.number

/-- `ValidationResult` record. -/
structure ValidationResult where
  valid : Bool
  error : Option String
deriving DecidableEq, Repr

/-- `validateBoard` (MeldValidator.ts lines 95-105): first invalid meld
yields a descriptive failure; otherwise valid. -/
def validateBoard (melds : List Meld) : ValidationResult :=
  match melds.find? (fun m => !(isValidMeld m)) with
  | some meld =>
      ⟨false, some ("Invalid meld: " ++
        String.intercalate ", " (meld.tiles.map tileCode))⟩
  | none => ⟨true, none⟩

/-- `calculateRunPoints` (MeldValidator.ts lines 118-130): sum of
`minNum + i` over all tile positions; 0 when there is no non-joker. -/
def calculateRunPoints (tiles : List Tile) : Int :=
  match List.insertionSort numLE (tiles.filter (fun t => !t.isJoker)) with
  | [] => 0
  | nj0 :: _ =>
    ((List.range tiles.length).map (fun i => nj0.number + (i : Int))).sum

/-- `calculateGroupPoints` (MeldValidator.ts lines 132-138). -/
def calculateGroupPoints (tiles : List Tile) : Int :=
  match tiles.filter (fun t => !t.isJoker) with
  | [] => 0
  | nj0 :: _ => nj0.number * (tiles.length : Int)

/-- `calculateMeldPoints` (MeldValidator.ts lines 108-116): run first,
then group, else 0. -/
def calculateMeldPoints (tiles : List Tile) : Int :=
  if isValidRun tiles then calculateRunPoints tiles
  else if isValidGroup tiles then calculateGroupPoints tiles
  else 0

/-- `calculateTotalPoints` (MeldValidator.ts lines 141-143). -/
def calculateTotalPoints (melds : List Meld) : Int :=
  melds.foldl (fun total meld => total + calculateMeldPoints meld.tiles) 0

/-! ## Pool (Pool.ts) and the turn engine (GameState.ts) -/

/-- `TILE_COLORS` (Tile.ts line 4). -/
def TILE_COLORS : List TileColor := [.red, .blue, .yellow, .black]

/-- `TILE_NUMBERS` (Tile.ts line 5). -/
def TILE_NUMBERS : List Int := [1, 2, 3, 4, 5, 6, 7, 8, 9, 10, 11, 12, 13]

/-- One in-place swap of the Fisher-Yates loop in `Pool.shuffle`. -/
def swapAt (l : List Tile) (i j : Nat) : List Tile :=
  match l.get? i, l.get? j with
  | some a, some b => (l.set i b).set j a
  | _, _ => l

/-- The `for (let i = length-1; i > 0; i--)` loop of `Pool.shuffle`,
with `Math.floor(Math.random() * (i + 1))` modelled by the oracle
`rand i % (i + 1)` (always in `[0, i]`). -/
def shuffleFrom (rand : Nat → Nat) : List Tile → Nat → List Tile
  | l, 0 => l
  | l, i + 1 => shuffleFrom rand (swapAt l (i + 1) (rand (i + 1) % (i + 2))) i

/-- `Pool.shuffle` (Pool.ts lines 31-36). -/
def shuffle (rand : Nat → Nat) (l : List Tile) : List Tile :=
  shuffleFrom rand l (l.length - 1)

/-- `Pool.initialize` (Pool.ts lines 11-29): two sets of 4 colors x 13
numbers, then two jokers, with fresh ids from the generator, then a
shuffle.  Ids are indexed in creation order, modelling nanoid. -/
def initialTiles (idGen : Nat → String) : List Tile :=
  let numbered :=
    (List.range 2).flatMap (fun _ =>
      TILE_COLORS.flatMap (fun c =>
        TILE_NUMBERS.map (fun n => (c, n))))
  let base := numbered.enum.map
    (fun p => Tile.mk (idGen p.1) p.2.1 p.2.2 false)
  base ++ [⟨idGen 104, .black, 0, true⟩, ⟨idGen 105, .black, 0, true⟩]

/-- `Pool.draw` (Pool.ts lines 38-40): `pop` removes the last element. -/
def poolDraw (pool : List Tile) : Option Tile × List Tile :=
  match pool.getLast? with
  | none => (none, pool)
  | some t => (some t, pool.dropLast)

/-- `Pool.drawMultiple` (Pool.ts lines 42-51). -/
def drawMultiple (pool : List Tile) : Nat → List Tile × List Tile
  | 0 => ([], pool)
  | n + 1 =>
    match poolDraw pool with
    | (none, pool') =>
      let (drawn, rest) := drawMultiple pool' n
      (drawn, rest)
    | (some t, pool') =>
      let (drawn, rest) := drawMultiple pool' n
      (t :: drawn, rest)

/-- `Pool.returnTile` (Pool.ts lines 53-56): push then reshuffle. -/
def returnTile (rand : Nat → Nat) (pool : List Tile) (t : Tile) : List Tile :=
  shuffle rand (pool ++ [t])

/-- `PlayerState` record (GameState.ts lines 9-15). -/
structure PlayerState where
  id : String
  name : String
  tiles : List Tile
  isConnected : Bool
  hasInitialMeld : Bool
deriving DecidableEq, Repr

/-- The `Game` fields (GameState.ts lines 17-25).  The JS
`Map<string, PlayerState>` is an insertion-ordered association list. -/
structure Game where
  pool : List Tile
  players : List (String × PlayerState)
  playerOrder : List String
  currentPlayerIndex : Nat
  board : List Meld
  turnStartBoard : List Meld
  turnStartHand : List Tile
  winner : Option String
deriving DecidableEq, Repr

/-- `Map.get`. -/
def mapGet (m : List (String × PlayerState)) (k : String) : Option PlayerState :=
  (m.find? (fun p => p.1 == k)).map (fun p => p.2)

/-- `Map.set`: replace in place if the key exists, else append. -/
def mapSet (m : List (String × PlayerState)) (k : String) (v : PlayerState) :
    List (String × PlayerState) :=
  match m with
  | [] => [(k, v)]
  | p :: rest => if p.1 == k then (k, v) :: rest else p :: mapSet rest k v

/-- `Map.delete`. -/
def mapDelete (m : List (String × PlayerState)) (k : String) :
    List (String × PlayerState) :=
  m.filter (fun p => p.1 ≠ k)

/-- The `Game` constructor (GameState.ts lines 27-36). -/
def newGame (idGen : Nat → String) (rand : Nat → Nat) : Game :=
  { pool := shuffle rand (initialTiles idGen)
    players := []
    playerOrder := []
    currentPlayerIndex := 0
    board := []
    turnStartBoard := []
    turnStartHand := []
    winner := none }

/-- `INITIAL_TILES` (GameState.ts line 6). -/
def INITIAL_TILES : Nat := 14

/-- `INITIAL_MELD_POINTS` (GameState.ts line 7). -/
def INITIAL_MELD_POINTS : Int := 30

/-- `Game.addPlayer` (GameState.ts lines 38-48). -/
def addPlayer (g : Game) (id name : String) : Game :=
  let (tiles, pool') := drawMultiple g.pool INITIAL_TILES
  { g with
      pool := pool'
      players := mapSet g.players id ⟨id, name, tiles, true, false⟩
      playerOrder := g.playerOrder ++ [id] }

/-- `Game.removePlayer` (GameState.ts lines 50-63). -/
def removePlayer (rand : Nat → Nat) (g : Game) (id : String) : Game :=
  match mapGet g.players id with
  | none => g
  | some player =>
    let pool' := player.tiles.foldl (fun pl t => returnTile rand pl t) g.pool
    let players' := mapDelete g.players id
    let order' := g.playerOrder.filter (fun pid => pid ≠ id)
    let idx :=
      if order'.length ≤ g.currentPlayerIndex then 0 else g.currentPlayerIndex
    { g with
        pool := pool', players := players', playerOrder := order',
        currentPlayerIndex := idx }

/-- `Game.getCurrentPlayerId` (GameState.ts lines 72-74); out-of-range
indexing yields `undefined`, modelled as `none`. -/
def getCurrentPlayerId (g : Game) : Option String :=
  g.playerOrder.get? g.currentPlayerIndex

/-- `Game.saveTurnStart` (GameState.ts lines 76-82); the JSON round-trip
deep copy is the identity on values. -/
def saveTurnStart (g : Game) : Game :=
  let g1 := { g with turnStartBoard := g.board }
  match (getCurrentPlayerId g).bind (mapGet g.players) with
  | some p => { g1 with turnStartHand := p.tiles }
  | none => g1

/-- `Game.startTurn` (GameState.ts lines 84-86). -/
def startTurn (g : Game) : Game :=
  saveTurnStart g

/-- `Game.undoTurn` (GameState.ts lines 88-101).  Returns the new state
and the error of the `{success, error?}` result. -/
def undoTurn (g : Game) : Game × Option String :=
  match getCurrentPlayerId g with
  | none => (g, some "Player not found")
  | some pid =>
    match mapGet g.players pid with
    | none => (g, some "Player not found")
    | some player =>
      ({ g with
          board := g.turnStartBoard
          players := mapSet g.players pid { player with tiles := g.turnStartHand } },
       none)

/-- `Game.nextTurn` (GameState.ts lines 195-198). -/
def nextTurn (g : Game) : Game :=
  saveTurnStart
    { g with currentPlayerIndex := (g.currentPlayerIndex + 1) % g.playerOrder.length }

/-- Tail of `Game.playTiles` after the initial-meld gate (GameState.ts
lines 151-168): the zero-tiles-played check, the commit, and the
winner-or-advance step.  `g` already contains any initial-meld flag
update, and `player` is the (possibly flag-updated) current player. -/
def playTilesCommit (g : Game) (pid : String) (player : PlayerState)
    (newBoard : List Meld) (newHand : List Tile) : Game × Option String :=
  let tilesPlayed : Int := (g.turnStartHand.length : Int) - (newHand.length : Int)
  if tilesPlayed ≤ 0 then (g, some "You must play at least one tile")
  else
    let player2 := { player with tiles := newHand }
    let g2 := { g with
                  board := newBoard
                  players := mapSet g.players pid player2 }
    if newHand.length == 0 then ({ g2 with winner := some pid }, none)
    else (nextTurn g2, none)

/-- `Game.playTiles` (GameState.ts lines 103-169). -/
def playTiles (g : Game) (pid : String) (newBoard : List Meld)
    (newHand : List Tile) : Game × Option String :=
  if getCurrentPlayerId g ≠ some pid then (g, some "Not your turn")
  else
    match mapGet g.players pid with
    | none => (g, some "Player not found")
    | some player =>
      let validation := validateBoard newBoard
      if !validation.valid then (g, validation.error)
      else
        let tilesOnBoard := newBoard.flatMap (fun m => m.tiles)
        let allTileIds :=
          (g.turnStartBoard.flatMap (fun m => m.tiles)).map (fun t => t.id) ++
            g.turnStartHand.map (fun t => t.id)
        if (tilesOnBoard ++ newHand).any (fun t => !(allTileIds.contains t.id)) then
          (g, some "Invalid tile detected")
        else
          if !player.hasInitialMeld then
            let handTileIds := g.turnStartHand.map (fun t => t.id)
            let newMeldsFromHand := newBoard.filter
              (fun meld => meld.tiles.all (fun t => handTileIds.contains t.id))
            let points := calculateTotalPoints newMeldsFromHand
            if points < INITIAL_MELD_POINTS then
              (g, some ("Initial meld must be at least " ++
                toString INITIAL_MELD_POINTS ++ " points (you have " ++
                toString points ++ ")"))
            else
              let player1 := { player with hasInitialMeld := true }
              let g1 := { g with players := mapSet g.players pid player1 }
              playTilesCommit g1 pid player1 newBoard newHand
          else playTilesCommit g pid player newBoard newHand

/-- `Game.drawTile` (GameState.ts lines 171-193).  The TS `player`
variable aliases the map entry, so the push after `undoTurn` lands on the
restored hand; the model re-fetches the player from the undone state. -/
def drawTile (g : Game) (pid : String) : Game × Option Tile × Option String :=
  if getCurrentPlayerId g ≠ some pid then (g, none, some "Not your turn")
  else
    match mapGet g.players pid with
    | none => (g, none, some "Player not found")
    | some _ =>
      let g1 := (undoTurn g).1
      match poolDraw g1.pool with
      | (none, _) => (g1, none, some "No tiles left in pool")
      | (some tile, pool') =>
        let g2 := { g1 with pool := pool' }
        match mapGet g2.players pid with
        | none => (g2, none, some "Player not found")
        | some player =>
          let g3 := { g2 with
            players := mapSet g2.players pid
              { player with tiles := player.tiles ++ [tile] } }
          (nextTurn g3, some tile, none)

/-- Total number of tiles in existence in a game state: pool, board, and
every map entry's hand. -/
def totalTiles (g : Game) : Nat :=
  g.pool.length + (g.board.flatMap (fun m => m.tiles)).length +
    (g.players.map (fun p => p.2.tiles.length)).sum

/-! ## Specification-side predicates and auxiliary definitions -/

/-- The non-joker tiles of a meld candidate. -/
def nonJokersOf (tiles : List Tile) : List Tile :=
  tiles.filter (fun t => !t.isJoker)

/-- `mn` is the minimum `number` among the given tiles. -/
def IsMinNum (nj : List Tile) (mn : Int) : Prop :=
  (∃ t ∈ nj, t.number = mn) ∧ ∀ t ∈ nj, mn ≤ t.number

/-- `mx` is the maximum `number` among the given tiles. -/
def IsMaxNum (nj : List Tile) (mx : Int) : Prop :=
  (∃ t ∈ nj, t.number = mx) ∧ ∀ t ∈ nj, t.number ≤ mx

/-- The run-validity property as the specification states it: tile count
at least 3, and either all tiles are jokers (trivially valid), or the
non-jokers share one color, have pairwise distinct numbers, and the span
from their minimum to their maximum number, together with the jokers (gap
fillers first, surplus extending either end by `L` to the left and `R` to
the right), forms one consecutive sequence anchored within `[1, 13]` of
length at most 13. -/
def RunSpec (tiles : List Tile) : Prop :=
  3 ≤ tiles.length ∧
  ((∀ t ∈ tiles, t.isJoker = true) ∨
   ((∃ c, ∀ t ∈ nonJokersOf tiles, t.color = c) ∧
    ((nonJokersOf tiles).map (fun t => t.number)).Nodup ∧
    ∃ mn mx : Int, IsMinNum (nonJokersOf tiles) mn ∧
      IsMaxNum (nonJokersOf tiles) mx ∧
      1 ≤ mn ∧ mx ≤ 13 ∧
      0 ≤ (mx - mn + 1) - ((nonJokersOf tiles).length : Int) ∧
      ∃ L R : Int, 0 ≤ L ∧ 0 ≤ R ∧
        ((mx - mn + 1) - ((nonJokersOf tiles).length : Int)) + L + R =
          (tiles.length : Int) - ((nonJokersOf tiles).length : Int) ∧
        1 ≤ mn - L ∧ mx + R ≤ 13 ∧
        (mx + R) - (mn - L) + 1 ≤ 13))

/-- The id pool used by the provenance check in `playTiles`: ids of all
turn-start board tiles followed by ids of the turn-start hand. -/
def provenanceIds (g : Game) : List String :=
  (g.turnStartBoard.flatMap (fun m => m.tiles)).map (fun t => t.id) ++
    g.turnStartHand.map (fun t => t.id)

/-- All keys of the player map are distinct (true of every map built by
`Map.set`). -/
def keysNodup (m : List (String × PlayerState)) : Prop :=
  (m.map (fun p => p.1)).Nodup

/-- One `playTiles` attempt, keeping only the state. -/
def playStep (g : Game) (r : String × List Meld × List Tile) : Game :=
  (playTiles g r.1 r.2.1 r.2.2).1

/-- A sequence of `playTiles` attempts. -/
def playSeq (g : Game) : List (String × List Meld × List Tile) → Game
  | [] => g
  | r :: rs => playSeq (playStep g r) rs

/-- Every attempt in the sequence is rejected (returns an error). -/
def RejectedAll (g : Game) : List (String × List Meld × List Tile) → Prop
  | [] => True
  | r :: rs => (playTiles g r.1 r.2.1 r.2.2).2.isSome = true ∧
      RejectedAll (playStep g r) rs

/-! ## A concrete game trace

With the identity random oracle (`rand i = i`, so every Fisher-Yates swap
is `swap i i`) the shuffled pool keeps creation order, and the decimal id
generator gives tile ids "0".."105".  Two players join and the first turn
starts. -/

/-- Decimal id generator standing in for nanoid. -/
def idG : Nat → String := fun n => toString n

/-- Identity random oracle: each swap is a self-swap. -/
def randI : Nat → Nat := fun i => i

/-- Fresh game. -/
def gNew : Game := newGame idG randI

/-- After player "A" joins. -/
def gA : Game := addPlayer gNew "A" "Alice"

/-- After player "B" joins. -/
def gAB : Game := addPlayer gA "B" "Bob"

/-- After the first turn starts (current player "A"). -/
def gStart : Game := startTurn gAB

/-- The second-set black tile with the given number (id "91"+..."103"). -/
def blk (n : Nat) : Tile := ⟨toString (90 + n), TileColor.black, (n : Int), false⟩

/-- One of the two jokers (ids "104" and "105"). -/
def jok (i : Nat) : Tile := ⟨toString i, TileColor.black, 0, true⟩

/-- Player A's dealt hand under this oracle: the two jokers and black
13 down to 2. -/
def handA : List Tile :=
  [jok 105, jok 104, blk 13, blk 12, blk 11, blk 10, blk 9, blk 8,
   blk 7, blk 6, blk 5, blk 4, blk 3, blk 2]

/-- A 30-point meld from A's hand: black 9-10-11. -/
def meld30 : Meld := ⟨"m30", [blk 9, blk 10, blk 11]⟩

/-- A's hand after playing `meld30`. -/
def handAfter30 : List Tile :=
  [jok 105, jok 104, blk 13, blk 12, blk 8, blk 7, blk 6, blk 5,
   blk 4, blk 3, blk 2]

/-- A 36-point meld from A's hand: black 11-12-13. -/
def meldTop : Meld := ⟨"mA", [blk 11, blk 12, blk 13]⟩

/-- The same three tiles again under a different meld id. -/
def meldTop2 : Meld := ⟨"mB", [blk 11, blk 12, blk 13]⟩

/-- A's hand after playing black 11-12-13 once. -/
def handAfterTop : List Tile :=
  [jok 105, jok 104, blk 10, blk 9, blk 8, blk 7, blk 6, blk 5,
   blk 4, blk 3, blk 2]

/-- A 15-point meld from A's hand: black 4-5-6. -/
def meld15 : Meld := ⟨"m15", [blk 4, blk 5, blk 6]⟩

/-- A 14-point meld from A's hand: black 2-3 plus both jokers
(scored as 2+3+4+5). -/
def meld14 : Meld := ⟨"m14", [blk 2, blk 3, jok 105, jok 104]⟩

/-- A's hand after the 29-point submission `[meld15, meld14]`. -/
def handAfter29 : List Tile :=
  [blk 13, blk 12, blk 11, blk 10, blk 9, blk 8, blk 7]

/-! ## Helper lemmas: sorted lists -/

/-- The head of a list is a member. -/
lemma headD_mem (s : List Tile) (h : s ≠ []) (d : Tile) : s.headD d ∈ s := by
  cases s with
  | nil => exact absurd rfl h
  | cons a rest => exact List.mem_cons_self a rest

/-- The last element of a list is a member. -/
lemma getLastD_mem (s : List Tile) (h : s ≠ []) (d : Tile) : s.getLastD d ∈ s := by
  induction s generalizing d with
  | nil => exact absurd rfl h
  | cons a rest ih =>
    rw [List.getLastD_cons]
    cases rest with
    | nil => exact List.mem_cons_self a []
    | cons b t => exact List.mem_cons_of_mem a (ih (by simp) a)

/-- In a list sorted by `numLE`, the head has the least `number`. -/
lemma sorted_headD_le (s : List Tile) (hs : List.Sorted numLE s) (d : Tile) :
    ∀ t ∈ s, (s.headD d).number ≤ t.number := by
  cases s with
  | nil => intro t ht; exact absurd ht (List.not_mem_nil t)
  | cons a rest =>
    intro t ht
    rcases List.mem_cons.mp ht with h | h
    · rw [h]; rfl
    · exact (List.pairwise_cons.mp hs).1 t h

/-- In a list sorted by `numLE`, the last element has the greatest
`number`. -/
lemma sorted_getLastD_ge (s : List Tile) (hs : List.Sorted numLE s) (d : Tile) :
    ∀ t ∈ s, t.number ≤ (s.getLastD d).number := by
  induction s generalizing d with
  | nil => intro t ht; exact absurd ht (List.not_mem_nil t)
  | cons a rest ih =>
    intro t ht
    rw [List.getLastD_cons]
    rcases List.mem_cons.mp ht with h | h
    · subst h
      cases rest with
      | nil => rfl
      | cons b tl =>
        have hab : numLE t b := (List.pairwise_cons.mp hs).1 b (List.mem_cons_self b tl)
        have hb := ih (List.pairwise_cons.mp hs).2 t b (List.mem_cons_self b tl)
        exact le_trans hab hb
    · exact ih (List.pairwise_cons.mp hs).2 a t h

/-- On a list sorted by `numLE`, the adjacent-duplicate scan fails exactly
when the numbers are not pairwise distinct. -/
lemma hasAdjDup_eq_false_iff (s : List Tile) (hs : List.Sorted numLE s) :
    hasAdjDup s = false ↔ (s.map (fun t => t.number)).Nodup := by
  induction s with
  | nil => simp [hasAdjDup]
  | cons a rest ih =>
    cases rest with
    | nil => simp [hasAdjDup]
    | cons b tl =>
      have hsrest : List.Sorted numLE (b :: tl) := (List.pairwise_cons.mp hs).2
      have hab : numLE a b := (List.pairwise_cons.mp hs).1 b (List.mem_cons_self b tl)
      have hble : ∀ t ∈ b :: tl, b.number ≤ t.number := by
        intro t ht
        rcases List.mem_cons.mp ht with h | h
        · rw [h]
        · exact (List.pairwise_cons.mp hsrest).1 t h
      constructor
      · intro h
        have h1 : (a.number == b.number) = false ∧ hasAdjDup (b :: tl) = false := by
          have := h
          rw [hasAdjDup] at this
          exact Bool.or_eq_false_iff.mp this
        have hnodup : ((b :: tl).map (fun t => t.number)).Nodup := ih hsrest |>.mp h1.2
        rw [List.map_cons, List.nodup_cons]
        refine ⟨?_, hnodup⟩
        intro hmem
        rcases List.mem_map.mp hmem with ⟨t, ht, hnum⟩
        have h1' : a.number ≠ b.number := by
          intro he; rw [he] at h1; simp at h1
        have hat : a.number ≤ b.number := hab
        have hbt : b.number ≤ t.number := hble t ht
        omega
      · intro h
        rw [List.map_cons, List.nodup_cons] at h
        have hne : a.number ≠ b.number := by
          intro he
          exact h.1 (List.mem_map.mpr ⟨b, List.mem_cons_self b tl, he.symm⟩)
        rw [hasAdjDup, Bool.or_eq_false_iff]
        exact ⟨by simp [hne], (ih hsrest).mpr h.2⟩

/-- The minimum witness is unique. -/
lemma isMinNum_unique (nj : List Tile) (a b : Int)
    (ha : IsMinNum nj a) (hb : IsMinNum nj b) : a = b := by
  obtain ⟨⟨ta, hta, htan⟩, hale⟩ := ha
  obtain ⟨⟨tb, htb, htbn⟩, hble⟩ := hb
  have h1 := hale tb htb
  have h2 := hble ta hta
  omega

/-- The maximum witness is unique. -/
lemma isMaxNum_unique (nj : List Tile) (a b : Int)
    (ha : IsMaxNum nj a) (hb : IsMaxNum nj b) : a = b := by
  obtain ⟨⟨ta, hta, htan⟩, hale⟩ := ha
  obtain ⟨⟨tb, htb, htbn⟩, hble⟩ := hb
  have h1 := hale tb htb
  have h2 := hble ta hta
  omega

/-- C3: `isValidRun(tiles)` returns true if and only if the tile count is
at least 3 and either all tiles are jokers (trivially valid), or the
non-jokers share one color, have pairwise distinct numbers, and the span
from the minimum to the maximum non-joker number together with the joker
count can be completed into one consecutive sequence of length at most 13
anchored within [1,13], jokers filling internal gaps first and surplus
jokers extending either end. -/
theorem isValidRun_iff (tiles : List Tile) :
    isValidRun tiles = true ↔ RunSpec tiles := by
  by_cases hlen : tiles.length < 3
  · constructor
    · intro h
      rw [isValidRun, if_pos hlen] at h
      exact absurd h (by simp)
    · rintro ⟨h3, -⟩
      omega
  · cases hfil : tiles.filter (fun t => !t.isJoker) with
    | nil =>
      have hall : ∀ t ∈ tiles, t.isJoker = true := by
        intro t ht
        by_contra hj
        have hmem : t ∈ tiles.filter (fun t => !t.isJoker) := by
          rw [List.mem_filter]
          exact ⟨ht, by simp [hj]⟩
        rw [hfil] at hmem
        exact absurd hmem (List.not_mem_nil t)
      constructor
      · intro _
        exact ⟨by omega, Or.inl hall⟩
      · intro _
        rw [isValidRun, if_neg hlen, hfil]
    | cons nj0 njRest =>
      have hnjsub : ∀ t ∈ nj0 :: njRest, t ∈ tiles ∧ t.isJoker = false := by
        intro t ht
        rw [← hfil] at ht
        have := List.mem_filter.mp ht
        exact ⟨this.1, by simpa using this.2⟩
      have hnotall : ¬ ∀ t ∈ tiles, t.isJoker = true := by
        intro h
        have h0 := hnjsub nj0 (List.mem_cons_self nj0 njRest)
        rw [h nj0 h0.1] at h0
        exact absurd h0.2 (by simp)
      have hspec : nonJokersOf tiles = nj0 :: njRest := hfil
      rw [isValidRun, if_neg hlen, hfil]
      rw [RunSpec]
      simp only [hspec]
      have hsort : List.Sorted numLE (List.insertionSort numLE (nj0 :: njRest)) :=
        List.sorted_insertionSort numLE (nj0 :: njRest)
      have hperm : (List.insertionSort numLE (nj0 :: njRest)).Perm (nj0 :: njRest) :=
        List.perm_insertionSort numLE (nj0 :: njRest)
      have hsne : List.insertionSort numLE (nj0 :: njRest) ≠ [] := by
        intro he
        have := hperm.length_eq
        rw [he] at this
        simp at this
      set s := List.insertionSort numLE (nj0 :: njRest) with hsdef
      set mn := (s.headD nj0).number with hmndef
      set mx := (s.getLastD nj0).number with hmxdef
      have hmin : IsMinNum (nj0 :: njRest) mn := by
        constructor
        · exact ⟨s.headD nj0, hperm.mem_iff.mp (headD_mem s hsne nj0), rfl⟩
        · intro t ht
          exact sorted_headD_le s hsort nj0 t (hperm.mem_iff.mpr ht)
      have hmax : IsMaxNum (nj0 :: njRest) mx := by
        constructor
        · exact ⟨s.getLastD nj0, hperm.mem_iff.mp (getLastD_mem s hsne nj0), rfl⟩
        · intro t ht
          exact sorted_getLastD_ge s hsort nj0 t (hperm.mem_iff.mpr ht)
      have hnodup_iff : ((nj0 :: njRest).map (fun t => t.number)).Nodup ↔
          (s.map (fun t => t.number)).Nodup := ((hperm.map _).nodup_iff).symm
      have hmnmx : mn ≤ mx := by
        obtain ⟨⟨t0, ht0, ht0e⟩, hle⟩ := hmin
        have h2 := hmax.2 t0 ht0
        omega
      have hlen3 : 3 ≤ tiles.length := by omega
      have hnjle : (nj0 :: njRest).length ≤ tiles.length := by
        rw [← hfil]
        exact List.length_filter_le _ tiles
      by_cases hcol : ((nj0 :: njRest).all fun t => t.color == nj0.color) = true
      case neg =>
        rw [if_pos (by simp [hcol])]
        constructor
        · intro h
          exact absurd h (by simp)
        · rintro ⟨-, hall | ⟨⟨c, hc⟩, -, -⟩⟩
          · exact absurd hall hnotall
          · refine absurd ?_ hcol
            rw [List.all_eq_true]
            intro t ht
            rw [beq_iff_eq, hc t ht, hc nj0 (List.mem_cons_self nj0 njRest)]
      case pos =>
        rw [if_neg (by simp [hcol])]
        by_cases hdup : hasAdjDup s = true
        case pos =>
          rw [if_pos hdup]
          have hnotnodup : ¬ ((nj0 :: njRest).map (fun t => t.number)).Nodup := by
            rw [hnodup_iff]
            intro hnd
            have hfalse := (hasAdjDup_eq_false_iff s hsort).mpr hnd
            simp [hfalse] at hdup
          constructor
          · intro h
            exact absurd h (by simp)
          · rintro ⟨-, hall | ⟨-, hnd, -⟩⟩
            · exact absurd hall hnotall
            · exact absurd hnd hnotnodup
        case neg =>
          rw [if_neg hdup]
          have hnd : ((nj0 :: njRest).map (fun t => t.number)).Nodup := by
            rw [hnodup_iff]
            exact (hasAdjDup_eq_false_iff s hsort).mp (by simpa using hdup)
          have hcolor : ∃ c, ∀ t ∈ nj0 :: njRest, t.color = c := by
            refine ⟨nj0.color, ?_⟩
            intro t ht
            have := List.all_eq_true.mp hcol t ht
            exact beq_iff_eq.mp this
          have hnjlen1 : (1 : Int) ≤ ((nj0 :: njRest).length : Int) := by
            simp
          have hnjleZ : ((nj0 :: njRest).length : Int) ≤ (tiles.length : Int) := by
            exact_mod_cast hnjle
          have hlen3Z : (3 : Int) ≤ (tiles.length : Int) := by exact_mod_cast hlen3
          by_cases h13 : mn < 1 ∨ mx > 13
          case pos =>
            rw [if_pos (by rcases h13 with h | h <;>
              (simp only [Bool.or_eq_true, decide_eq_true_eq]; omega))]
            constructor
            · intro h
              exact absurd h (by simp)
            · rintro ⟨-, hall | ⟨-, -, mn', mx', hmin', hmax', hh1, hh2, -⟩⟩
              · exact absurd hall hnotall
              · have e1 := isMinNum_unique _ _ _ hmin' hmin
                have e2 := isMaxNum_unique _ _ _ hmax' hmax
                omega
          case neg =>
            rw [if_neg (by simpa using h13)]
            push_neg at h13
            by_cases hgapc : mx - mn + 1 - ((nj0 :: njRest).length : Int) < 0 ∨
                mx - mn + 1 - ((nj0 :: njRest).length : Int) >
                  (tiles.length : Int) - ((nj0 :: njRest).length : Int)
            case pos =>
              rw [if_pos (by rcases hgapc with h | h <;>
                (simp only [Bool.or_eq_true, decide_eq_true_eq]; omega))]
              constructor
              · intro h
                exact absurd h (by simp)
              · rintro ⟨-, hall | ⟨-, -, mn', mx', hmin', hmax', -, -, hh3,
                    L, R, hL0, hR0, hsum, -⟩⟩
                · exact absurd hall hnotall
                · have e1 := isMinNum_unique _ _ _ hmin' hmin
                  have e2 := isMaxNum_unique _ _ _ hmax' hmax
                  omega
            case neg =>
              rw [if_neg (by simpa using hgapc)]
              push_neg at hgapc
              have hBeq : ((tiles.length : Int) ==
                  mx - mn + 1 + ((tiles.length : Int) - ((nj0 :: njRest).length : Int) -
                    (mx - mn + 1 - ((nj0 :: njRest).length : Int)))) = true := by
                rw [beq_iff_eq]
                omega
              rw [hBeq]
              constructor
              · intro h
                refine ⟨hlen3, Or.inr ⟨hcolor, hnd, mn, mx, hmin, hmax,
                  by omega, by omega, by omega, ?_⟩⟩
                split_ifs at h with hi1 hc3 hc4 hc5
                all_goals simp at h
                all_goals
                  by_cases hsplit : (tiles.length : Int) - ((nj0 :: njRest).length : Int) -
                      (mx - mn + 1 - ((nj0 :: njRest).length : Int)) ≤ mn - 1
                all_goals
                  first
                  | (refine ⟨(tiles.length : Int) - ((nj0 :: njRest).length : Int) -
                        (mx - mn + 1 - ((nj0 :: njRest).length : Int)), 0,
                        ?_, ?_, ?_, ?_, ?_, ?_⟩ <;> omega)
                  | (refine ⟨mn - 1, (tiles.length : Int) - ((nj0 :: njRest).length : Int) -
                        (mx - mn + 1 - ((nj0 :: njRest).length : Int)) - (mn - 1),
                        ?_, ?_, ?_, ?_, ?_, ?_⟩ <;> omega)
              · rintro ⟨-, hall | ⟨-, -, mn', mx', hmin', hmax', -, -, -,
                    L, R, hL0, hR0, hsum, ha1, ha2, ha3⟩⟩
                · exact absurd hall hnotall
                · have e1 := isMinNum_unique _ _ _ hmin' hmin
                  have e2 := isMaxNum_unique _ _ _ hmax' hmax
                  subst e1
                  subst e2
                  split_ifs with hi1 hc3 hc4 hc5
                  all_goals first | rfl | (exfalso; omega)

/-- C10: for an all-joker meld, the count checks still gate the
trivial-validity rule: such a meld is a valid run exactly when it has at
least 3 tiles, and a valid group exactly when it has 3 or 4 tiles; hence
a meld of exactly two jokers is rejected by both validators. -/
theorem allJoker_validity (tiles : List Tile)
    (hall : ∀ t ∈ tiles, t.isJoker = true) :
    (isValidRun tiles = true ↔ 3 ≤ tiles.length) ∧
    (isValidGroup tiles = true ↔ tiles.length = 3 ∨ tiles.length = 4) := by
  have hfil : tiles.filter (fun t => !t.isJoker) = [] := by
    rw [List.filter_eq_nil_iff]
    intro t ht
    simp [hall t ht]
  constructor
  · rw [isValidRun]
    by_cases hlen : tiles.length < 3
    · rw [if_pos hlen]
      constructor
      · intro h
        exact absurd h (by simp)
      · intro h
        omega
    · rw [if_neg hlen, hfil]
      constructor
      · intro _
        omega
      · intro _
        rfl
  · rw [isValidGroup]
    by_cases hlen : tiles.length < 3 ∨ tiles.length > 4
    · rw [if_pos (by rcases hlen with h | h <;>
        (simp only [Bool.or_eq_true, decide_eq_true_eq]; omega))]
      constructor
      · intro h
        exact absurd h (by simp)
      · intro h
        omega
    · rw [if_neg (by simpa using hlen), hfil]
      push_neg at hlen
      constructor
      · intro _
        omega
      · intro _
        rfl

/-- Witness for C10: a meld of exactly two jokers is rejected by both
`isValidRun` and `isValidGroup`. -/
theorem allJoker_validity_witness :
    isValidRun [jok 104, jok 105] = false ∧
    isValidGroup [jok 104, jok 105] = false := by
  have h := allJoker_validity [jok 104, jok 105] (by decide)
  constructor
  · cases hb : isValidRun [jok 104, jok 105]
    · rfl
    · exact absurd (h.1.mp hb) (by decide)
  · cases hb : isValidGroup [jok 104, jok 105]
    · rfl
    · exact absurd (h.2.mp hb) (by decide)

/-- C8: `calculateMeldPoints`: a valid run anchored by a minimum non-joker
number `mn` scores the sum of `mn + i` over all tile positions (jokers
included); a valid group that is not a run scores the shared non-joker
number times the tile count; a meld that is neither scores 0. -/
theorem calculateMeldPoints_spec (tiles : List Tile) :
    (∀ mn : Int, isValidRun tiles = true →
      IsMinNum (nonJokersOf tiles) mn →
      calculateMeldPoints tiles =
        ((List.range tiles.length).map (fun i => mn + (i : Int))).sum) ∧
    (∀ n : Int, isValidRun tiles = false → isValidGroup tiles = true →
      nonJokersOf tiles ≠ [] → (∀ t ∈ nonJokersOf tiles, t.number = n) →
      calculateMeldPoints tiles = n * (tiles.length : Int)) ∧
    (isValidRun tiles = false → isValidGroup tiles = false →
      calculateMeldPoints tiles = 0) := by
  refine ⟨?_, ?_, ?_⟩
  · intro mn hrun hmn
    rw [calculateMeldPoints, if_pos hrun, calculateRunPoints]
    have hperm : (List.insertionSort numLE (tiles.filter (fun t => !t.isJoker))).Perm
        (tiles.filter (fun t => !t.isJoker)) :=
      List.perm_insertionSort numLE _
    have hsort : List.Sorted numLE (List.insertionSort numLE
        (tiles.filter (fun t => !t.isJoker))) :=
      List.sorted_insertionSort numLE _
    cases hs : List.insertionSort numLE (tiles.filter (fun t => !t.isJoker)) with
    | nil =>
      exfalso
      obtain ⟨⟨t0, ht0, -⟩, -⟩ := hmn
      have : t0 ∈ List.insertionSort numLE (tiles.filter (fun t => !t.isJoker)) :=
        hperm.mem_iff.mpr ht0
      rw [hs] at this
      exact absurd this (List.not_mem_nil t0)
    | cons a rest =>
      rw [hs] at hperm hsort
      have hamem : a ∈ nonJokersOf tiles :=
        hperm.mem_iff.mp (List.mem_cons_self a rest)
      have hamin : IsMinNum (nonJokersOf tiles) a.number := by
        constructor
        · exact ⟨a, hamem, rfl⟩
        · intro t ht
          have hts : t ∈ a :: rest := hperm.mem_iff.mpr ht
          exact sorted_headD_le (a :: rest) hsort a t hts
      rw [isMinNum_unique _ _ _ hmn hamin]
  · intro n hrun hgrp hne hnum
    rw [calculateMeldPoints, hrun, if_neg (by simp), if_pos hgrp,
      calculateGroupPoints]
    cases hf : tiles.filter (fun t => !t.isJoker) with
    | nil => exact absurd hf hne
    | cons a rest =>
      have hamem : a ∈ nonJokersOf tiles := by
        rw [nonJokersOf, hf]
        exact List.mem_cons_self a rest
      show a.number * (tiles.length : Int) = n * (tiles.length : Int)
      rw [hnum a hamem]
  · intro hrun hgrp
    rw [calculateMeldPoints, hrun, if_neg (by simp), hgrp, if_neg (by simp)]

/-- Witness for C8: the run black-4, joker, black-6 is valid and scores
4 + 5 + 6 = 15, the joker contributing 5. -/
theorem calculateMeldPoints_spec_witness :
    calculateMeldPoints [blk 4, jok 104, blk 6] = 15 ∧
    (4 : Int) + 5 + 6 = 15 := by
  have h := (calculateMeldPoints_spec [blk 4, jok 104, blk 6]).1 4
    (by decide) (by unfold IsMinNum; decide)
  constructor
  · rw [h]
    decide
  · decide


/-! ## Helper lemmas: the player map, pool sizes, and rejected turns -/

/-- Reading the key just written (replaced in place or appended). -/
lemma mapGet_mapSet (m : List (String × PlayerState)) (k q : String)
    (v : PlayerState) :
    mapGet (mapSet m k v) q = if q = k then some v else mapGet m q := by
  induction m with
  | nil =>
    by_cases hq : q = k
    · subst hq
      simp [mapGet, mapSet, List.find?]
    · simp [mapGet, mapSet, List.find?, show (k == q) = false from by
        simpa using Ne.symm hq, hq]
  | cons p rest ih =>
    rw [mapSet]
    by_cases hpk : p.1 = k
    · rw [if_pos (by simpa using hpk)]
      by_cases hq : q = k
      · subst hq
        simp [mapGet, List.find?]
      · rw [if_neg hq]
        simp only [mapGet, List.find?,
          show (k == q) = false from by simpa using fun h => hq h.symm,
          show (p.1 == q) = false from by
            simp only [beq_eq_false_iff_ne]
            rw [hpk]
            exact fun h => hq h.symm]
    · rw [if_neg (by simpa using hpk)]
      by_cases hq : q = k
      · subst hq
        rw [if_pos rfl]
        have hpq : (p.1 == q) = false := by simpa using hpk
        simp only [mapGet, List.find?, hpq]
        have := ih
        rw [if_pos rfl] at this
        simpa [mapGet] using this
      · rw [if_neg hq]
        by_cases hpq : p.1 = q
        · simp [mapGet, List.find?, show (p.1 == q) = true from by simpa using hpq]
        · have hpq' : (p.1 == q) = false := by simpa using hpq
          simp only [mapGet, List.find?, hpq']
          have := ih
          rw [if_neg hq] at this
          simpa [mapGet] using this

/-- Writing a present key k trades its hand for the new one in the hand-size sum. -/
lemma mapSet_sum_tiles (m : List (String × PlayerState)) (k : String)
    (v p : PlayerState) (hget : mapGet m k = some p) :
    ((mapSet m k v).map (fun e => e.2.tiles.length)).sum + p.tiles.length =
      (m.map (fun e => e.2.tiles.length)).sum + v.tiles.length := by
  induction m with
  | nil => simp [mapGet] at hget
  | cons e rest ih =>
    by_cases hek : e.1 = k
    · rw [mapSet, if_pos (by simpa using hek)]
      have hep : e.2 = p := by
        rw [mapGet, List.find?_cons_of_pos _ (by simpa using hek)] at hget
        simpa using hget
      simp [hep]
      omega
    · rw [mapSet, if_neg (by simpa using hek)]
      rw [mapGet, List.find?_cons_of_neg _ (by simpa using hek)] at hget
      have := ih hget
      simp only [List.map_cons, List.sum_cons]
      omega

/-- Deleting an absent key is a no-op. -/
lemma mapDelete_of_not_mem (m : List (String × PlayerState)) (k : String)
    (h : k ∉ m.map (fun e => e.1)) : mapDelete m k = m := by
  induction m with
  | nil => rfl
  | cons e rest ih =>
    rw [List.map_cons] at h
    rw [List.mem_cons, not_or] at h
    rw [mapDelete, List.filter_cons]
    rw [if_pos (by simpa using Ne.symm h.1)]
    have := ih (by simpa using h.2)
    rw [mapDelete] at this
    rw [this]

/-- Deleting a present key (unique keys) removes exactly its hand from the sum. -/
lemma mapDelete_sum_tiles (m : List (String × PlayerState)) (k : String)
    (p : PlayerState) (hnd : keysNodup m) (hget : mapGet m k = some p) :
    ((mapDelete m k).map (fun e => e.2.tiles.length)).sum + p.tiles.length =
      (m.map (fun e => e.2.tiles.length)).sum := by
  induction m with
  | nil => simp [mapGet] at hget
  | cons e rest ih =>
    rw [keysNodup, List.map_cons, List.nodup_cons] at hnd
    by_cases hek : e.1 = k
    · have hep : e.2 = p := by
        rw [mapGet, List.find?_cons_of_pos _ (by simpa using hek)] at hget
        simpa using hget
      rw [mapDelete, List.filter_cons, if_neg (by simpa using hek)]
      have hrest : mapDelete rest k = rest :=
        mapDelete_of_not_mem rest k (by rw [← hek]; exact hnd.1)
      rw [mapDelete] at hrest
      rw [hrest]
      simp only [List.map_cons, List.sum_cons]
      rw [hep]
      omega
    · rw [mapGet, List.find?_cons_of_neg _ (by simpa using hek)] at hget
      have := ih hnd.2 hget
      rw [mapDelete, List.filter_cons, if_pos (by simpa using hek)]
      simp only [List.map_cons, List.sum_cons]
      rw [mapDelete] at this
      omega

/-- `swapAt` preserves length. -/
lemma swapAt_length (l : List Tile) (i j : Nat) :
    (swapAt l i j).length = l.length := by
  rw [swapAt]
  cases hi : l.get? i <;> cases hj : l.get? j <;> simp

/-- The shuffle loop preserves length. -/
lemma shuffleFrom_length (rand : Nat → Nat) (l : List Tile) (n : Nat) :
    (shuffleFrom rand l n).length = l.length := by
  induction n generalizing l with
  | zero => rfl
  | succ i ih =>
    rw [shuffleFrom, ih, swapAt_length]

/-- `shuffle` preserves length. -/
lemma shuffle_length (rand : Nat → Nat) (l : List Tile) :
    (shuffle rand l).length = l.length := by
  rw [shuffle, shuffleFrom_length]

/-- `returnTile` grows the pool by one. -/
lemma returnTile_length (rand : Nat → Nat) (pool : List Tile) (t : Tile) :
    (returnTile rand pool t).length = pool.length + 1 := by
  rw [returnTile, shuffle_length, List.length_append, List.length_cons]
  rfl

/-- Returning a list of tiles grows the pool by its length. -/
lemma foldl_returnTile_length (rand : Nat → Nat) (ts : List Tile)
    (pool : List Tile) :
    (ts.foldl (fun pl t => returnTile rand pl t) pool).length =
      pool.length + ts.length := by
  induction ts generalizing pool with
  | nil => rfl
  | cons t rest ih =>
    rw [List.foldl_cons, ih, returnTile_length, List.length_cons]
    omega

/-- `drawMultiple` conserves tiles between the drawn list and the pool. -/
lemma drawMultiple_length (pool : List Tile) (n : Nat) :
    (drawMultiple pool n).1.length + (drawMultiple pool n).2.length =
      pool.length := by
  induction n generalizing pool with
  | zero => simp [drawMultiple]
  | succ m ih =>
    rw [drawMultiple]
    cases hl : pool.getLast? with
    | none =>
      have hp : poolDraw pool = (none, pool) := by rw [poolDraw, hl]
      rw [hp]
      exact ih pool
    | some t =>
      have hp : poolDraw pool = (some t, pool.dropLast) := by rw [poolDraw, hl]
      rw [hp]
      have hne : pool ≠ [] := by
        intro he
        rw [he] at hl
        cases hl
      have hlen1 : 1 ≤ pool.length := List.length_pos.mpr hne
      have hdl := List.length_dropLast pool
      have hrec := ih pool.dropLast
      show (t :: (drawMultiple pool.dropLast m).1).length +
        (drawMultiple pool.dropLast m).2.length = pool.length
      rw [List.length_cons]
      omega

/-- `saveTurnStart` changes only the snapshot fields. -/
lemma saveTurnStart_fields (g : Game) :
    (saveTurnStart g).pool = g.pool ∧
    (saveTurnStart g).players = g.players ∧
    (saveTurnStart g).playerOrder = g.playerOrder ∧
    (saveTurnStart g).currentPlayerIndex = g.currentPlayerIndex ∧
    (saveTurnStart g).board = g.board ∧
    (saveTurnStart g).winner = g.winner ∧
    (saveTurnStart g).turnStartBoard = g.board := by
  rw [saveTurnStart]
  cases hm : (getCurrentPlayerId g).bind (mapGet g.players) <;> simp

/-- `nextTurn` advances the index, snapshots the board, and changes no
other non-snapshot field. -/
lemma nextTurn_fields (g : Game) :
    (nextTurn g).pool = g.pool ∧
    (nextTurn g).players = g.players ∧
    (nextTurn g).playerOrder = g.playerOrder ∧
    (nextTurn g).currentPlayerIndex =
      (g.currentPlayerIndex + 1) % g.playerOrder.length ∧
    (nextTurn g).board = g.board ∧
    (nextTurn g).winner = g.winner ∧
    (nextTurn g).turnStartBoard = g.board := by
  rw [nextTurn]
  have h := saveTurnStart_fields
    { g with currentPlayerIndex := (g.currentPlayerIndex + 1) % g.playerOrder.length }
  exact ⟨h.1, h.2.1, h.2.2.1, h.2.2.2.1, h.2.2.2.2.1, h.2.2.2.2.2.1, h.2.2.2.2.2.2⟩

/-- A rejected `playTilesCommit` returns the state it was given. -/
lemma playTilesCommit_rejected (g : Game) (pid : String) (player : PlayerState)
    (nb : List Meld) (nh : List Tile) (e : String)
    (h : (playTilesCommit g pid player nb nh).2 = some e) :
    (playTilesCommit g pid player nb nh).1 = g ∧
    e = "You must play at least one tile" := by
  rw [playTilesCommit] at h ⊢
  by_cases htp : ((g.turnStartHand.length : Int) - (nh.length : Int)) ≤ 0
  · rw [if_pos htp] at h ⊢
    exact ⟨rfl, by simpa using h.symm⟩
  · rw [if_neg htp] at h
    by_cases hz : (nh.length == 0) = true
    · rw [if_pos hz] at h
      cases h
    · rw [if_neg hz] at h
      cases h

/-- A rejected `playTiles` leaves every component unchanged except,
possibly, initial-meld flags: the board, pool, snapshots, turn index,
order, winner, and every player's hand are untouched. -/
lemma playTiles_rejected (g : Game) (pid : String) (nb : List Meld)
    (nh : List Tile) (e : String)
    (h : (playTiles g pid nb nh).2 = some e) :
    (playTiles g pid nb nh).1.board = g.board ∧
    (playTiles g pid nb nh).1.pool = g.pool ∧
    (playTiles g pid nb nh).1.turnStartBoard = g.turnStartBoard ∧
    (playTiles g pid nb nh).1.turnStartHand = g.turnStartHand ∧
    (playTiles g pid nb nh).1.currentPlayerIndex = g.currentPlayerIndex ∧
    (playTiles g pid nb nh).1.playerOrder = g.playerOrder ∧
    (playTiles g pid nb nh).1.winner = g.winner ∧
    ∀ q, (mapGet (playTiles g pid nb nh).1.players q).map (fun p => p.tiles) =
      (mapGet g.players q).map (fun p => p.tiles) := by
  rw [playTiles] at h ⊢
  by_cases hcur : getCurrentPlayerId g ≠ some pid
  · rw [if_pos hcur]
    exact ⟨rfl, rfl, rfl, rfl, rfl, rfl, rfl, fun q => rfl⟩
  · rw [if_neg hcur] at h ⊢
    cases hget : mapGet g.players pid with
    | none =>
      exact ⟨rfl, rfl, rfl, rfl, rfl, rfl, rfl, fun q => rfl⟩
    | some player =>
      rw [hget] at h
      simp only [] at h ⊢
      split_ifs at h ⊢ with h1 h2 h3 h4
      · exact ⟨rfl, rfl, rfl, rfl, rfl, rfl, rfl, fun q => rfl⟩
      · exact ⟨rfl, rfl, rfl, rfl, rfl, rfl, rfl, fun q => rfl⟩
      · exact ⟨rfl, rfl, rfl, rfl, rfl, rfl, rfl, fun q => rfl⟩
      · have hc := playTilesCommit_rejected _ _ _ _ _ _ h
        rw [hc.1]
        refine ⟨rfl, rfl, rfl, rfl, rfl, rfl, rfl, ?_⟩
        intro q
        rw [mapGet_mapSet]
        by_cases hq : q = pid
        · rw [if_pos hq, hq, hget]
          rfl
        · rw [if_neg hq]
      · have hc := playTilesCommit_rejected _ _ _ _ _ _ h
        rw [hc.1]
        exact ⟨rfl, rfl, rfl, rfl, rfl, rfl, rfl, fun q => rfl⟩

/-! ## Turn-engine theorems -/

/-- Setting an absent key appends the new entry. -/
lemma mapSet_of_get_none (m : List (String × PlayerState)) (k : String)
    (v : PlayerState) (h : mapGet m k = none) :
    mapSet m k v = m ++ [(k, v)] := by
  induction m with
  | nil => rfl
  | cons e rest ih =>
    rw [mapGet] at h
    by_cases hek : e.1 = k
    · rw [List.find?_cons_of_pos _ (by simpa using hek)] at h
      cases h
    · rw [List.find?_cons_of_neg _ (by simpa using hek)] at h
      rw [mapSet, if_neg (by simpa using hek), ih h]
      rfl

/-- `undoTurn` with a current player present: board and hand are restored
from the snapshot and the result is a success. -/
lemma undoTurn_eq (g : Game) (pid : String) (p : PlayerState)
    (hcur : getCurrentPlayerId g = some pid)
    (hget : mapGet g.players pid = some p) :
    undoTurn g =
      ({ g with
          board := g.turnStartBoard
          players := mapSet g.players pid { p with tiles := g.turnStartHand } },
       none) := by
  rw [undoTurn, hcur]
  simp only []
  rw [hget]

/-- `saveTurnStart` with a current player present snapshots board and
that player's hand. -/
lemma saveTurnStart_eq (g : Game) (pid : String) (p : PlayerState)
    (hcur : getCurrentPlayerId g = some pid)
    (hget : mapGet g.players pid = some p) :
    saveTurnStart g =
      { g with
          turnStartBoard := g.board
          turnStartHand := p.tiles } := by
  rw [saveTurnStart, hcur]
  rw [Option.some_bind, hget]

/-- An invalid board report always carries an error message. -/
lemma validateBoard_error (melds : List Meld)
    (h : (validateBoard melds).valid = false) :
    (validateBoard melds).error.isSome = true := by
  rw [validateBoard] at h ⊢
  cases hf : melds.find? (fun m => !(isValidMeld m)) with
  | none =>
    rw [hf] at h
    simp at h
  | some meld => rfl

/-- The commit phase leaves the player map unchanged (when it rejects) or
replaces exactly the committing player's entry with the new hand. -/
lemma playTilesCommit_players (g : Game) (pid : String) (player : PlayerState)
    (nb : List Meld) (nh : List Tile) :
    (playTilesCommit g pid player nb nh).1.players = g.players ∨
    (playTilesCommit g pid player nb nh).1.players =
      mapSet g.players pid { player with tiles := nh } := by
  rw [playTilesCommit]
  split_ifs
  · exact Or.inl rfl
  · exact Or.inr rfl
  · right
    exact (nextTurn_fields _).2.1

/-- A sequence of rejected `playTiles` attempts preserves the board, pool,
snapshots, index, order, winner, and every player's hand. -/
lemma playSeq_rejected_fields (reqs : List (String × List Meld × List Tile))
    (g0 : Game) (hrej : RejectedAll g0 reqs) :
    (playSeq g0 reqs).board = g0.board ∧
    (playSeq g0 reqs).pool = g0.pool ∧
    (playSeq g0 reqs).turnStartBoard = g0.turnStartBoard ∧
    (playSeq g0 reqs).turnStartHand = g0.turnStartHand ∧
    (playSeq g0 reqs).currentPlayerIndex = g0.currentPlayerIndex ∧
    (playSeq g0 reqs).playerOrder = g0.playerOrder ∧
    (playSeq g0 reqs).winner = g0.winner ∧
    ∀ q, (mapGet (playSeq g0 reqs).players q).map (fun r => r.tiles) =
      (mapGet g0.players q).map (fun r => r.tiles) := by
  induction reqs generalizing g0 with
  | nil => exact ⟨rfl, rfl, rfl, rfl, rfl, rfl, rfl, fun q => rfl⟩
  | cons r rs ih =>
    obtain ⟨hr, hrs⟩ := hrej
    obtain ⟨e, he⟩ := Option.isSome_iff_exists.mp hr
    have hstep := playTiles_rejected g0 r.1 r.2.1 r.2.2 e he
    have hrec := ih (playStep g0 r) hrs
    rw [playSeq]
    refine ⟨?_, ?_, ?_, ?_, ?_, ?_, ?_, ?_⟩
    · rw [hrec.1]; exact hstep.1
    · rw [hrec.2.1]; exact hstep.2.1
    · rw [hrec.2.2.1]; exact hstep.2.2.1
    · rw [hrec.2.2.2.1]; exact hstep.2.2.2.1
    · rw [hrec.2.2.2.2.1]; exact hstep.2.2.2.2.1
    · rw [hrec.2.2.2.2.2.1]; exact hstep.2.2.2.2.2.1
    · rw [hrec.2.2.2.2.2.2.1]; exact hstep.2.2.2.2.2.2.1
    · intro q
      rw [hrec.2.2.2.2.2.2.2 q]
      exact hstep.2.2.2.2.2.2.2 q

/-- C9: after `startTurn` snapshots the board and the current player's
hand, any sequence of rejected `playTiles` attempts followed by `undoTurn`
succeeds and restores the board and the current player's hand to the
snapshot values; `undoTurn` changes neither the current-player index nor
the pool. -/
theorem undo_roundtrip (g : Game) (pid : String) (p : PlayerState)
    (reqs : List (String × List Meld × List Tile))
    (hcur : getCurrentPlayerId g = some pid)
    (hget : mapGet g.players pid = some p)
    (hrej : RejectedAll (startTurn g) reqs) :
    (undoTurn (playSeq (startTurn g) reqs)).2 = none ∧
    (undoTurn (playSeq (startTurn g) reqs)).1.board = g.board ∧
    (mapGet (undoTurn (playSeq (startTurn g) reqs)).1.players pid).map
      (fun r => r.tiles) = some p.tiles ∧
    (undoTurn (playSeq (startTurn g) reqs)).1.currentPlayerIndex =
      (playSeq (startTurn g) reqs).currentPlayerIndex ∧
    (undoTurn (playSeq (startTurn g) reqs)).1.pool =
      (playSeq (startTurn g) reqs).pool := by
  have hst : startTurn g =
      { g with
          turnStartBoard := g.board
          turnStartHand := p.tiles } := by
    rw [startTurn]
    exact saveTurnStart_eq g pid p hcur hget
  have hseq := playSeq_rejected_fields reqs (startTurn g) hrej
  set G := playSeq (startTurn g) reqs with hG
  have hcurG : getCurrentPlayerId G = some pid := by
    rw [getCurrentPlayerId, hseq.2.2.2.2.2.1, hseq.2.2.2.2.1, hst]
    exact hcur
  have hgetG : ∃ q, mapGet G.players pid = some q := by
    have := hseq.2.2.2.2.2.2.2 pid
    rw [hst] at this
    simp only [] at this
    rw [hget] at this
    cases hx : mapGet G.players pid with
    | none => rw [hx] at this; cases this
    | some q => exact ⟨q, rfl⟩
  obtain ⟨q, hq⟩ := hgetG
  rw [undoTurn_eq G pid q hcurG hq]
  have htsb : G.turnStartBoard = g.board := by
    rw [hseq.2.2.1, hst]
  have htsh : G.turnStartHand = p.tiles := by
    rw [hseq.2.2.2.1, hst]
  refine ⟨rfl, ?_, ?_, rfl, rfl⟩
  · exact htsb
  · rw [mapGet_mapSet, if_pos rfl, htsh]
    rfl

/-- A successful commit: empty hand crowns the winner without advancing;
otherwise the turn advances and the committed board is re-snapshotted. -/
lemma playTilesCommit_success (g : Game) (pid : String) (player : PlayerState)
    (nb : List Meld) (nh : List Tile)
    (h : (playTilesCommit g pid player nb nh).2 = none) :
    (nh = [] → (playTilesCommit g pid player nb nh).1.winner = some pid ∧
      (playTilesCommit g pid player nb nh).1.currentPlayerIndex =
        g.currentPlayerIndex) ∧
    (nh ≠ [] → (playTilesCommit g pid player nb nh).1.currentPlayerIndex =
        (g.currentPlayerIndex + 1) % g.playerOrder.length ∧
      (playTilesCommit g pid player nb nh).1.board = nb ∧
      (playTilesCommit g pid player nb nh).1.turnStartBoard = nb) := by
  rw [playTilesCommit] at h ⊢
  by_cases h1 : ((g.turnStartHand.length : Int) - (nh.length : Int)) ≤ 0
  · rw [if_pos h1] at h
    cases h
  · rw [if_neg h1] at h ⊢
    by_cases h2 : (nh.length == 0) = true
    · rw [if_pos h2]
      refine ⟨fun _ => ⟨rfl, rfl⟩, fun hne =>
        absurd (List.length_eq_zero.mp (by simpa using h2)) hne⟩
    · rw [if_neg h2]
      refine ⟨fun he => absurd ?_ h2, fun hne => ?_⟩
      · rw [he]
        simp
      · have hnt := nextTurn_fields
          { g with
              board := nb
              players := mapSet g.players pid { player with tiles := nh } }
        exact ⟨hnt.2.2.2.1, hnt.2.2.2.2.1, hnt.2.2.2.2.2.2⟩

/-- C7: after a successful `playTiles`, an empty committed hand ends the
game with that player as winner and no advance of the current-player
index; otherwise the index advances by one (wrapping) and the new
turn-start snapshot records the just-committed board. -/
theorem playTiles_success_transition (g : Game) (pid : String)
    (nb : List Meld) (nh : List Tile)
    (hsucc : (playTiles g pid nb nh).2 = none) :
    (nh = [] → (playTiles g pid nb nh).1.winner = some pid ∧
      (playTiles g pid nb nh).1.currentPlayerIndex = g.currentPlayerIndex) ∧
    (nh ≠ [] → (playTiles g pid nb nh).1.currentPlayerIndex =
        (g.currentPlayerIndex + 1) % g.playerOrder.length ∧
      (playTiles g pid nb nh).1.board = nb ∧
      (playTiles g pid nb nh).1.turnStartBoard = nb) := by
  rw [playTiles] at hsucc ⊢
  by_cases hcur : getCurrentPlayerId g ≠ some pid
  · rw [if_pos hcur] at hsucc
    cases hsucc
  · rw [if_neg hcur] at hsucc ⊢
    cases hget : mapGet g.players pid with
    | none =>
      rw [hget] at hsucc
      cases hsucc
    | some player =>
      rw [hget] at hsucc
      simp only [] at hsucc ⊢
      split_ifs at hsucc ⊢ with h1 h2 h3 h4
      all_goals first
      | cases hsucc
      | (have hn : (validateBoard nb).error = none := hsucc
         have hv : (validateBoard nb).valid = false := by simpa using h1
         have he := validateBoard_error nb hv
         rw [hn] at he
         simp at he)
      | exact playTilesCommit_success _ _ _ _ _ hsucc

set_option maxRecDepth 100000 in
/-- Witness for C7: the first player's 30-point submission advances the
index from 0 to 1 and snapshots the committed board for player B. -/
theorem playTiles_success_transition_witness :
    (playTiles gStart "A" [meld30] handAfter30).1.currentPlayerIndex = 1 ∧
    (playTiles gStart "A" [meld30] handAfter30).1.turnStartBoard = [meld30] := by
  have h := playTiles_success_transition gStart "A" [meld30] handAfter30 (by decide)
  have h2 := h.2 (by decide)
  refine ⟨?_, h2.2.2⟩
  rw [h2.1]
  decide

set_option maxRecDepth 1000000 in
/-- Witness for C9: from the two-player game, one rejected zero-tile
submission then `undoTurn` restores player A's board and hand. -/
theorem undo_roundtrip_witness :
    (undoTurn (playSeq (startTurn gAB) [("A", [meld30], handA)])).2 = none ∧
    (undoTurn (playSeq (startTurn gAB) [("A", [meld30], handA)])).1.board =
      gAB.board ∧
    (mapGet (undoTurn (playSeq (startTurn gAB)
        [("A", [meld30], handA)])).1.players "A").map
      (fun r => r.tiles) = some handA := by
  have h := undo_roundtrip gAB "A" ⟨"A", "Alice", handA, true, false⟩
    [("A", [meld30], handA)] (by decide) (by decide) ⟨by decide, trivial⟩
  exact ⟨h.1, h.2.1, h.2.2.1⟩

/-- C5: `drawTile` rejects out-of-turn callers; otherwise it first
restores board and hand to the turn-start snapshot, then draws the top
pool tile — rejecting if the pool is empty (the restore already done) —
and on success appends the drawn tile to the restored hand, returns it,
and advances to the next player. -/
theorem drawTile_spec (g : Game) (pid : String) (p : PlayerState) (t : Tile) :
    (getCurrentPlayerId g ≠ some pid →
      drawTile g pid = (g, none, some "Not your turn")) ∧
    (getCurrentPlayerId g = some pid → mapGet g.players pid = some p →
      g.pool = [] →
      (drawTile g pid).2.2 = some "No tiles left in pool" ∧
      (drawTile g pid).2.1 = none ∧
      (drawTile g pid).1.board = g.turnStartBoard ∧
      (drawTile g pid).1.pool = g.pool ∧
      (mapGet (drawTile g pid).1.players pid).map (fun r => r.tiles) =
        some g.turnStartHand) ∧
    (getCurrentPlayerId g = some pid → mapGet g.players pid = some p →
      g.pool.getLast? = some t →
      (drawTile g pid).2.1 = some t ∧
      (drawTile g pid).2.2 = none ∧
      (drawTile g pid).1.pool = g.pool.dropLast ∧
      (drawTile g pid).1.board = g.turnStartBoard ∧
      (mapGet (drawTile g pid).1.players pid).map (fun r => r.tiles) =
        some (g.turnStartHand ++ [t]) ∧
      (drawTile g pid).1.currentPlayerIndex =
        (g.currentPlayerIndex + 1) % g.playerOrder.length) := by
  refine ⟨?_, ?_, ?_⟩
  · intro hcur
    rw [drawTile, if_pos hcur]
  · intro hcur hget hpool
    rw [drawTile, if_neg (by simp [hcur]), hget]
    simp only []
    rw [undoTurn_eq g pid p hcur hget]
    simp only []
    have hdraw : poolDraw g.pool = (none, g.pool) := by
      rw [poolDraw, hpool]
      rfl
    rw [hdraw]
    refine ⟨?_, ?_, ?_, ?_, ?_⟩ <;>
      first
      | trivial
      | (rw [mapGet_mapSet, if_pos rfl]
         rfl)
  · intro hcur hget hlast
    rw [drawTile, if_neg (by simp [hcur]), hget]
    simp only []
    rw [undoTurn_eq g pid p hcur hget]
    simp only []
    have hdraw : poolDraw g.pool = (some t, g.pool.dropLast) := by
      rw [poolDraw, hlast]
    rw [hdraw]
    simp only []
    have hg2 : mapGet (mapSet g.players pid
        { p with tiles := g.turnStartHand }) pid =
        some { p with tiles := g.turnStartHand } := by
      rw [mapGet_mapSet, if_pos rfl]
    rw [hg2]
    simp only []
    refine ⟨?_, ?_, ?_, ?_, ?_, ?_⟩ <;>
      first
      | trivial
      | rw [(nextTurn_fields _).1]
      | rw [(nextTurn_fields _).2.2.2.2.1]
      | (rw [(nextTurn_fields _).2.1, mapGet_mapSet, if_pos rfl]
         rfl)
      | rw [(nextTurn_fields _).2.2.2.1]

set_option maxRecDepth 1000000 in
/-- Witness for C5: player A draws; the drawn tile is the pool's top
tile, the committed hand is the snapshot hand plus that tile, and the
turn passes to player B. -/
theorem drawTile_spec_witness :
    (drawTile gStart "A").2.1 = some ⟨"77", TileColor.blue, 13, false⟩ ∧
    (drawTile gStart "A").1.currentPlayerIndex = 1 ∧
    (mapGet (drawTile gStart "A").1.players "A").map (fun r => r.tiles) =
      some (handA ++ [⟨"77", TileColor.blue, 13, false⟩]) := by
  have h := (drawTile_spec gStart "A" ⟨"A", "Alice", handA, true, false⟩
    ⟨"77", TileColor.blue, 13, false⟩).2.2 (by decide) (by decide) (by decide)
  refine ⟨h.1, ?_, ?_⟩
  · rw [h.2.2.2.2.2]
    decide
  · rw [h.2.2.2.2.1]
    decide

/-- The commit phase never lowers an initial-meld flag. -/
lemma playTilesCommit_flag_mono (g : Game) (pid : String)
    (player : PlayerState) (nb : List Meld) (nh : List Tile) (q : String)
    (pq : PlayerState) (hpg : mapGet g.players pid = some player)
    (hq : mapGet g.players q = some pq) (hflag : pq.hasInitialMeld = true) :
    (mapGet (playTilesCommit g pid player nb nh).1.players q).map
      (fun r => r.hasInitialMeld) = some true := by
  rcases playTilesCommit_players g pid player nb nh with hp | hp <;> rw [hp]
  · rw [hq]
    simp [hflag]
  · rw [mapGet_mapSet]
    by_cases hqp : q = pid
    · rw [if_pos hqp]
      rw [hqp, hpg] at hq
      have he : player = pq := by injection hq
      subst he
      simp [hflag]
    · rw [if_neg hqp, hq]
      simp [hflag]

/-- `playTiles` never lowers an initial-meld flag. -/
lemma playTiles_flag_mono (g : Game) (pid : String) (nb : List Meld)
    (nh : List Tile) (q : String) (pq : PlayerState)
    (hq : mapGet g.players q = some pq) (hflag : pq.hasInitialMeld = true) :
    (mapGet (playTiles g pid nb nh).1.players q).map
      (fun r => r.hasInitialMeld) = some true := by
  rw [playTiles]
  by_cases hcur : getCurrentPlayerId g ≠ some pid
  · rw [if_pos hcur]
    rw [hq]
    simp [hflag]
  · rw [if_neg hcur]
    cases hget : mapGet g.players pid with
    | none =>
      rw [hq]
      simp [hflag]
    | some player =>
      simp only []
      split_ifs with h1 h2 h3 h4
      · rw [hq]
        simp [hflag]
      · rw [hq]
        simp [hflag]
      · rw [hq]
        simp [hflag]
      · by_cases hqp : q = pid
        · refine playTilesCommit_flag_mono _ _ _ _ _ q
            { player with hasInitialMeld := true } ?_ ?_ rfl
          · show mapGet (mapSet g.players pid
              { player with hasInitialMeld := true }) pid = _
            rw [mapGet_mapSet, if_pos rfl]
          · show mapGet (mapSet g.players pid
              { player with hasInitialMeld := true }) q = _
            rw [mapGet_mapSet, if_pos hqp]
        · refine playTilesCommit_flag_mono _ _ _ _ _ q pq ?_ ?_ hflag
          · show mapGet (mapSet g.players pid
              { player with hasInitialMeld := true }) pid = _
            rw [mapGet_mapSet, if_pos rfl]
          · show mapGet (mapSet g.players pid
              { player with hasInitialMeld := true }) q = _
            rw [mapGet_mapSet, if_neg hqp]
            exact hq
      · exact playTilesCommit_flag_mono _ _ _ _ _ q pq hget hq hflag

/-- `undoTurn` never lowers an initial-meld flag. -/
lemma undoTurn_flag_mono (g : Game) (q : String) (pq : PlayerState)
    (hq : mapGet g.players q = some pq) (hflag : pq.hasInitialMeld = true) :
    (mapGet (undoTurn g).1.players q).map
      (fun r => r.hasInitialMeld) = some true := by
  rw [undoTurn]
  cases hcur : getCurrentPlayerId g with
  | none =>
    rw [hq]
    simp [hflag]
  | some pid =>
    simp only []
    cases hget : mapGet g.players pid with
    | none =>
      rw [hq]
      simp [hflag]
    | some player =>
      simp only []
      rw [mapGet_mapSet]
      by_cases hqp : q = pid
      · rw [if_pos hqp]
        rw [hqp, hget] at hq
        have he : player = pq := by injection hq
        subst he
        simp [hflag]
      · rw [if_neg hqp, hq]
        simp [hflag]

/-- `startTurn` never changes the player map at all. -/
lemma startTurn_players (g : Game) : (startTurn g).players = g.players := by
  rw [startTurn]
  exact (saveTurnStart_fields g).2.1

/-- `drawTile` never lowers an initial-meld flag. -/
lemma drawTile_flag_mono (g : Game) (pid : String) (q : String)
    (pq : PlayerState)
    (hq : mapGet g.players q = some pq) (hflag : pq.hasInitialMeld = true) :
    (mapGet (drawTile g pid).1.players q).map
      (fun r => r.hasInitialMeld) = some true := by
  rw [drawTile]
  by_cases hcur : getCurrentPlayerId g ≠ some pid
  · rw [if_pos hcur]
    rw [hq]
    simp [hflag]
  · rw [if_neg hcur]
    cases hget : mapGet g.players pid with
    | none =>
      rw [hq]
      simp [hflag]
    | some player =>
      simp only []
      have hcur2 : getCurrentPlayerId g = some pid := by
        by_contra hc
        exact hcur hc
      rw [undoTurn_eq g pid player hcur2 hget]
      simp only []
      have hu : ∀ k, mapGet (mapSet g.players pid
          { player with tiles := g.turnStartHand }) k =
          if k = pid then some { player with tiles := g.turnStartHand }
          else mapGet g.players k := fun k => mapGet_mapSet _ _ _ _
      cases hdraw : poolDraw g.pool with
    | mk fst snd =>
      cases fst with
      | none =>
        simp only []
        rw [hu q]
        by_cases hqp : q = pid
        · rw [if_pos hqp]
          rw [hqp, hget] at hq
          have he : player = pq := by injection hq
          subst he
          simp [hflag]
        · rw [if_neg hqp, hq]
          simp [hflag]
      | some t =>
        simp only []
        rw [hu pid, if_pos rfl]
        simp only []
        rw [(nextTurn_fields _).2.1, mapGet_mapSet]
        by_cases hqp : q = pid
        · rw [if_pos hqp]
          rw [hqp, hget] at hq
          have he : player = pq := by injection hq
          subst he
          simp [hflag]
        · rw [if_neg hqp, hu q, if_neg hqp, hq]
          simp [hflag]

/-- C6: for a player who has not made the initial meld, `playTiles`
scores the melds drawn entirely from the turn-start hand and rejects
below 30 points, reporting the shortfall; at 30 or more (other checks
passing) it succeeds and sets the flag; once the flag is true the
threshold is never consulted again; and no turn operation ever lowers
the flag. -/
theorem initialMeld_spec (g : Game) (pid : String) (player : PlayerState)
    (nb : List Meld) (nh : List Tile) :
    (getCurrentPlayerId g = some pid → mapGet g.players pid = some player →
     player.hasInitialMeld = false →
     (validateBoard nb).valid = true →
     ((nb.flatMap (fun m => m.tiles) ++ nh).any
        (fun t => !((provenanceIds g).contains t.id))) = false →
     calculateTotalPoints (nb.filter (fun meld =>
        meld.tiles.all (fun t =>
          (g.turnStartHand.map (fun t => t.id)).contains t.id))) <
       INITIAL_MELD_POINTS →
     playTiles g pid nb nh = (g, some ("Initial meld must be at least " ++
       toString INITIAL_MELD_POINTS ++ " points (you have " ++
       toString (calculateTotalPoints (nb.filter (fun meld =>
         meld.tiles.all (fun t =>
           (g.turnStartHand.map (fun t => t.id)).contains t.id)))) ++
       ")"))) ∧
    (getCurrentPlayerId g = some pid → mapGet g.players pid = some player →
     player.hasInitialMeld = false →
     (validateBoard nb).valid = true →
     ((nb.flatMap (fun m => m.tiles) ++ nh).any
        (fun t => !((provenanceIds g).contains t.id))) = false →
     ¬ calculateTotalPoints (nb.filter (fun meld =>
        meld.tiles.all (fun t =>
          (g.turnStartHand.map (fun t => t.id)).contains t.id))) <
       INITIAL_MELD_POINTS →
     0 < (g.turnStartHand.length : Int) - (nh.length : Int) →
     (playTiles g pid nb nh).2 = none ∧
     (mapGet (playTiles g pid nb nh).1.players pid).map
       (fun r => r.hasInitialMeld) = some true) ∧
    (getCurrentPlayerId g = some pid → mapGet g.players pid = some player →
     player.hasInitialMeld = true →
     (validateBoard nb).valid = true →
     ((nb.flatMap (fun m => m.tiles) ++ nh).any
        (fun t => !((provenanceIds g).contains t.id))) = false →
     0 < (g.turnStartHand.length : Int) - (nh.length : Int) →
     (playTiles g pid nb nh).2 = none) ∧
    (∀ q pq, mapGet g.players q = some pq → pq.hasInitialMeld = true →
      (mapGet (playTiles g pid nb nh).1.players q).map
        (fun r => r.hasInitialMeld) = some true ∧
      (mapGet (drawTile g pid).1.players q).map
        (fun r => r.hasInitialMeld) = some true ∧
      (mapGet (undoTurn g).1.players q).map
        (fun r => r.hasInitialMeld) = some true ∧
      (mapGet (startTurn g).players q).map
        (fun r => r.hasInitialMeld) = some true) := by
  rw [provenanceIds]
  refine ⟨?_, ?_, ?_, ?_⟩
  · intro hcur hget hflag hv hprov hpts
    rw [playTiles, if_neg (by simp [hcur]), hget]
    simp only []
    rw [if_neg (by simp [hv]), if_neg (by rw [hprov]; simp),
      if_pos (by simp [hflag]), if_pos hpts]
  · intro hcur hget hflag hv hprov hpts htp
    rw [playTiles, if_neg (by simp [hcur]), hget]
    simp only []
    rw [if_neg (by simp [hv]), if_neg (by rw [hprov]; simp),
      if_pos (by simp [hflag]), if_neg hpts]
    rw [playTilesCommit, if_neg (by simpa using htp)]
    by_cases hz : (nh.length == 0) = true
    · rw [if_pos hz]
      constructor
      · rfl
      · show (mapGet (mapSet (mapSet g.players pid
          { player with hasInitialMeld := true }) pid
          { { player with hasInitialMeld := true } with tiles := nh })
            pid).map (fun r => r.hasInitialMeld) = some true
        rw [mapGet_mapSet, if_pos rfl]
        rfl
    · rw [if_neg hz]
      constructor
      · rfl
      · rw [(nextTurn_fields _).2.1]
        show (mapGet (mapSet (mapSet g.players pid
          { player with hasInitialMeld := true }) pid
          { { player with hasInitialMeld := true } with tiles := nh })
            pid).map (fun r => r.hasInitialMeld) = some true
        rw [mapGet_mapSet, if_pos rfl]
        rfl
  · intro hcur hget hflag hv hprov htp
    rw [playTiles, if_neg (by simp [hcur]), hget]
    simp only []
    rw [if_neg (by simp [hv]), if_neg (by rw [hprov]; simp),
      if_neg (by simp [hflag])]
    rw [playTilesCommit, if_neg (by simpa using htp)]
    by_cases hz : (nh.length == 0) = true
    · rw [if_pos hz]
    · rw [if_neg hz]
  · intro q pq hq hflag
    exact ⟨playTiles_flag_mono g pid nb nh q pq hq hflag,
      drawTile_flag_mono g pid q pq hq hflag,
      undoTurn_flag_mono g q pq hq hflag,
      by rw [startTurn_players, hq]; simp [hflag]⟩

set_option maxRecDepth 1000000 in
/-- Witness for C6: the 29-point first submission is rejected with the
shortfall reported; the 30-point one is accepted and sets the flag. -/
theorem initialMeld_spec_witness :
    (playTiles gStart "A" [meld15, meld14] handAfter29).2 =
      some "Initial meld must be at least 30 points (you have 29)" ∧
    (playTiles gStart "A" [meld30] handAfter30).2 = none ∧
    (mapGet (playTiles gStart "A" [meld30] handAfter30).1.players "A").map
      (fun r => r.hasInitialMeld) = some true := by
  have h29 := (initialMeld_spec gStart "A" ⟨"A", "Alice", handA, true, false⟩
    [meld15, meld14] handAfter29).1 (by decide) (by decide) rfl (by decide)
    (by decide) (by decide)
  have h30 := (initialMeld_spec gStart "A" ⟨"A", "Alice", handA, true, false⟩
    [meld30] handAfter30).2.1 (by decide) (by decide) rfl (by decide)
    (by decide) (by decide) (by decide)
  refine ⟨?_, h30.1, h30.2⟩
  rw [h29]
  decide

set_option maxRecDepth 1000000 in
/-- C1 (the code violates the claim): the zero-tiles-played submission is
rejected, yet the submitting player's initial-meld flag — false before
the call — is true afterwards, so a rejected `playTiles` does not leave
all state unchanged. -/
theorem playTiles_rejection_mutates_flag :
    (playTiles gStart "A" [meld30] handA).2 =
      some "You must play at least one tile" ∧
    (mapGet gStart.players "A").map (fun r => r.hasInitialMeld) =
      some false ∧
    (mapGet (playTiles gStart "A" [meld30] handA).1.players "A").map
      (fun r => r.hasInitialMeld) = some true := by
  exact ⟨by decide, by decide, by decide⟩

/-- C2 (amended): any tile in the submitted board or hand whose id is not
traceable to the turn-start board and hand makes `playTiles` reject. -/
theorem provenance_reject (g : Game) (pid : String) (nb : List Meld)
    (nh : List Tile) (t : Tile)
    (hmem : t ∈ nb.flatMap (fun m => m.tiles) ++ nh)
    (hid : ¬ t.id ∈ provenanceIds g) :
    (playTiles g pid nb nh).2.isSome = true := by
  rw [playTiles]
  by_cases hcur : getCurrentPlayerId g ≠ some pid
  · rw [if_pos hcur]
    rfl
  · rw [if_neg hcur]
    cases hget : mapGet g.players pid with
    | none => rfl
    | some player =>
      simp only []
      by_cases hval : (!(validateBoard nb).valid) = true
      · rw [if_pos hval]
        exact validateBoard_error nb (by simpa using hval)
      · rw [if_neg hval]
        rw [provenanceIds] at hid
        rw [if_pos (by
          rw [List.any_eq_true]
          refine ⟨t, hmem, ?_⟩
          simp only [Bool.not_eq_true']
          rw [← Bool.not_eq_true]
          intro hc
          exact hid (List.mem_of_elem_eq_true hc))]
        rfl

set_option maxRecDepth 1000000 in
/-- Witness for C2: a submission containing a fabricated tile id is
rejected. -/
theorem provenance_reject_witness :
    (playTiles gStart "A"
      [⟨"mx", [blk 9, blk 10, ⟨"999", TileColor.black, 11, false⟩]⟩]
      handA).2.isSome = true :=
  provenance_reject gStart "A"
    [⟨"mx", [blk 9, blk 10, ⟨"999", TileColor.black, 11, false⟩]⟩]
    handA ⟨"999", TileColor.black, 11, false⟩ (by decide) (by decide)

set_option maxRecDepth 1000000 in
/-- C2 counterexample: a successful `playTiles` can commit the same tile
id twice: the provenance check does not prevent duplication. -/
theorem provenance_duplication_counterexample :
    (playTiles gStart "A" [meldTop, meldTop2] handAfterTop).2 = none ∧
    (((playTiles gStart "A" [meldTop, meldTop2] handAfterTop).1.board.flatMap
        (fun m => m.tiles)).map (fun t => t.id)).count "101" = 2 := by
  exact ⟨by decide, by decide⟩

set_option maxRecDepth 1000000 in
/-- C4 counterexample: from a fresh game (106 tiles), two joins, a turn
start and one accepted `playTiles`, the total tile count becomes 109. -/
theorem totalTiles_counterexample :
    totalTiles gNew = 106 ∧
    totalTiles gStart = 106 ∧
    (playTiles gStart "A" [meldTop, meldTop2] handAfterTop).2 = none ∧
    totalTiles (playTiles gStart "A" [meldTop, meldTop2] handAfterTop).1 =
      109 := by
  exact ⟨by decide, by decide, by decide, by decide⟩

/-- `addPlayer` with a fresh id conserves tiles: the dealt hand comes out
of the pool. -/
lemma totalTiles_addPlayer (g : Game) (idp name : String)
    (hfresh : mapGet g.players idp = none) :
    totalTiles (addPlayer g idp name) = totalTiles g := by
  have hdm := drawMultiple_length g.pool INITIAL_TILES
  rw [addPlayer]
  cases hdm2 : drawMultiple g.pool INITIAL_TILES with
  | mk drawn pool2 =>
    rw [hdm2] at hdm
    rw [totalTiles, totalTiles]
    simp only []
    rw [mapSet_of_get_none _ _ _ hfresh, List.map_append, List.sum_append]
    simp only [List.map_cons, List.map_nil, List.sum_cons, List.sum_nil]
    have hdm3 : drawn.length + pool2.length = g.pool.length := hdm
    omega

/-- `removePlayer` conserves tiles: the removed hand returns to the pool. -/
lemma totalTiles_removePlayer (rand : Nat → Nat) (g : Game) (idp : String)
    (hnd : keysNodup g.players) :
    totalTiles (removePlayer rand g idp) = totalTiles g := by
  rw [removePlayer]
  cases hget : mapGet g.players idp with
  | none => rfl
  | some p2 =>
    simp only []
    rw [totalTiles, totalTiles]
    simp only []
    have hpool := foldl_returnTile_length rand p2.tiles g.pool
    have hsum := mapDelete_sum_tiles g.players idp p2 hnd hget
    omega

/-- `startTurn` moves no tiles. -/
lemma totalTiles_startTurn (g : Game) :
    totalTiles (startTurn g) = totalTiles g := by
  rw [startTurn, totalTiles, totalTiles, (saveTurnStart_fields g).1,
    (saveTurnStart_fields g).2.1, (saveTurnStart_fields g).2.2.2.2.1]

/-- `undoTurn` conserves tiles when board and current hand match the
snapshot in tile count (as they do right after `startTurn`). -/
lemma totalTiles_undoTurn (g : Game) (pid : String) (p : PlayerState)
    (hcur : getCurrentPlayerId g = some pid)
    (hget : mapGet g.players pid = some p)
    (hsync : p.tiles.length + (g.board.flatMap (fun m => m.tiles)).length =
      g.turnStartHand.length +
        (g.turnStartBoard.flatMap (fun m => m.tiles)).length) :
    totalTiles (undoTurn g).1 = totalTiles g := by
  rw [undoTurn_eq g pid p hcur hget]
  rw [totalTiles, totalTiles]
  simp only []
  have hsum := mapSet_sum_tiles g.players pid
    { p with tiles := g.turnStartHand } p hget
  simp only [] at hsum
  omega

/-- `drawTile` conserves tiles when board and current hand match the
snapshot in tile count: the silent undo then moves one tile from pool to
hand (or nothing when the pool is empty). -/
lemma totalTiles_drawTile (g : Game) (pid : String) (p : PlayerState)
    (hcur : getCurrentPlayerId g = some pid)
    (hget : mapGet g.players pid = some p)
    (hsync : p.tiles.length + (g.board.flatMap (fun m => m.tiles)).length =
      g.turnStartHand.length +
        (g.turnStartBoard.flatMap (fun m => m.tiles)).length) :
    totalTiles (drawTile g pid).1 = totalTiles g := by
  rw [drawTile, if_neg (by simp [hcur]), hget]
  simp only []
  rw [undoTurn_eq g pid p hcur hget]
  simp only []
  have hsum := mapSet_sum_tiles g.players pid
    { p with tiles := g.turnStartHand } p hget
  simp only [] at hsum
  cases hl : g.pool.getLast? with
  | none =>
    have hdraw : poolDraw g.pool = (none, g.pool) := by
      rw [poolDraw, hl]
    rw [hdraw]
    rw [totalTiles, totalTiles]
    simp only []
    omega
  | some t =>
    have hdraw : poolDraw g.pool = (some t, g.pool.dropLast) := by
      rw [poolDraw, hl]
    rw [hdraw]
    simp only []
    have hg2 : mapGet (mapSet g.players pid
        { p with tiles := g.turnStartHand }) pid =
        some { p with tiles := g.turnStartHand } := by
      rw [mapGet_mapSet, if_pos rfl]
    rw [hg2]
    simp only []
    rw [totalTiles, totalTiles]
    rw [(nextTurn_fields _).1, (nextTurn_fields _).2.1,
      (nextTurn_fields _).2.2.2.2.1]
    simp only []
    have hsum2 := mapSet_sum_tiles
      (mapSet g.players pid { p with tiles := g.turnStartHand }) pid
      { { p with tiles := g.turnStartHand } with
          tiles := g.turnStartHand ++ [t] }
      { p with tiles := g.turnStartHand } hg2
    simp only [] at hsum2
    have hne : g.pool ≠ [] := by
      intro he
      rw [he] at hl
      cases hl
    have hlen1 : 1 ≤ g.pool.length := List.length_pos.mpr hne
    have hdl := List.length_dropLast g.pool
    have happ : (g.turnStartHand ++ [t]).length =
      g.turnStartHand.length + 1 := by
      rw [List.length_append]
      rfl
    omega

/-- Tile count across a successful commit: the old board and hand are
replaced by the submitted ones. -/
lemma totalTiles_playTilesCommit_success (g : Game) (pid : String)
    (player : PlayerState) (nb : List Meld) (nh : List Tile)
    (hget : mapGet g.players pid = some player)
    (h : (playTilesCommit g pid player nb nh).2 = none) :
    totalTiles (playTilesCommit g pid player nb nh).1 + player.tiles.length +
      (g.board.flatMap (fun m => m.tiles)).length =
    totalTiles g + nh.length + (nb.flatMap (fun m => m.tiles)).length := by
  rw [playTilesCommit] at h ⊢
  by_cases h1 : ((g.turnStartHand.length : Int) - (nh.length : Int)) ≤ 0
  · rw [if_pos h1] at h
    cases h
  · rw [if_neg h1]
    have hsum := mapSet_sum_tiles g.players pid
      { player with tiles := nh } player hget
    simp only [] at hsum
    by_cases hz : (nh.length == 0) = true
    · rw [if_pos hz]
      rw [totalTiles, totalTiles]
      simp only []
      omega
    · rw [if_neg hz]
      rw [totalTiles, totalTiles,
        (nextTurn_fields _).1, (nextTurn_fields _).2.1,
        (nextTurn_fields _).2.2.2.2.1]
      simp only []
      omega

/-- A rejected `playTiles` moves no tiles. -/
lemma totalTiles_playTiles_rejected (g : Game) (pid : String)
    (nb : List Meld) (nh : List Tile) (e : String)
    (h : (playTiles g pid nb nh).2 = some e) :
    totalTiles (playTiles g pid nb nh).1 = totalTiles g := by
  rw [playTiles] at h ⊢
  by_cases hcur : getCurrentPlayerId g ≠ some pid
  · rw [if_pos hcur]
  · rw [if_neg hcur] at h ⊢
    cases hget : mapGet g.players pid with
    | none => rfl
    | some player =>
      rw [hget] at h
      simp only [] at h ⊢
      split_ifs at h ⊢ with h1 h2 h3 h4
      all_goals try rfl
      · have hc := playTilesCommit_rejected _ _ _ _ _ _ h
        rw [hc.1]
        rw [totalTiles, totalTiles]
        simp only []
        have hsum := mapSet_sum_tiles g.players pid
          { player with hasInitialMeld := true } player hget
        simp only [] at hsum
        omega
      · have hc := playTilesCommit_rejected _ _ _ _ _ _ h
        rw [hc.1]

/-- A successful `playTiles` changes the total tile count exactly by the
submission's size relative to the replaced board and hand. -/
lemma totalTiles_playTiles_success (g : Game) (pid : String)
    (p : PlayerState) (nb : List Meld) (nh : List Tile)
    (hget : mapGet g.players pid = some p)
    (hsucc : (playTiles g pid nb nh).2 = none) :
    totalTiles (playTiles g pid nb nh).1 + p.tiles.length +
      (g.board.flatMap (fun m => m.tiles)).length =
    totalTiles g + nh.length + (nb.flatMap (fun m => m.tiles)).length := by
  rw [playTiles] at hsucc ⊢
  by_cases hcur : getCurrentPlayerId g ≠ some pid
  · rw [if_pos hcur] at hsucc
    cases hsucc
  · rw [if_neg hcur] at hsucc ⊢
    cases hget2 : mapGet g.players pid with
    | none =>
      rw [hget2] at hsucc
      cases hsucc
    | some player =>
      have hpp : player = p := by
        rw [hget2] at hget
        injection hget
      subst hpp
      rw [hget2] at hsucc
      simp only [] at hsucc ⊢
      split_ifs at hsucc ⊢ with h1 h2 h3 h4
      all_goals first
      | cases hsucc
      | (have hn : (validateBoard nb).error = none := hsucc
         have hv : (validateBoard nb).valid = false := by simpa using h1
         have he := validateBoard_error nb hv
         rw [hn] at he
         simp at he)
      | (exact totalTiles_playTilesCommit_success g pid player nb nh
          hget2 hsucc)
      | (have hg1get : mapGet (mapSet g.players pid
            { player with hasInitialMeld := true }) pid =
            some { player with hasInitialMeld := true } := by
           rw [mapGet_mapSet, if_pos rfl]
         have hcs := totalTiles_playTilesCommit_success
           { g with players := (mapSet g.players pid
               { player with hasInitialMeld := true }) }
           pid { player with hasInitialMeld := true } nb nh hg1get hsucc
         have e1 : ({ player with hasInitialMeld := true } :
             PlayerState).tiles.length = player.tiles.length := rfl
         have e2 : ({ g with players := (mapSet g.players pid
             { player with hasInitialMeld := true }) } : Game).board =
             g.board := rfl
         have hg1 : totalTiles { g with players := (mapSet g.players pid
             { player with hasInitialMeld := true }) } = totalTiles g := by
           rw [totalTiles, totalTiles]
           simp only []
           have hsum := mapSet_sum_tiles g.players pid
             { player with hasInitialMeld := true } player hget2
           omega
         rw [e1, e2, hg1] at hcs
         exact hcs)

/-- C4 (amended): the tile total is conserved by `addPlayer` with a fresh
id, `removePlayer` with distinct map keys, `startTurn`, and — from a
state whose board and current hand match the turn-start snapshot in tile
count — by `undoTurn` and `drawTile`; a rejected `playTiles` also
conserves it, but a successful `playTiles` changes the total exactly by
the submitted board-plus-hand size relative to what it replaces, so the
constant-106 invariant does not hold for arbitrary submissions. -/
theorem totalTiles_spec (g : Game) (rand : Nat → Nat)
    (idp name pid : String) (p : PlayerState) (nb : List Meld)
    (nh : List Tile) (e : String) :
    (mapGet g.players idp = none →
      totalTiles (addPlayer g idp name) = totalTiles g) ∧
    (keysNodup g.players →
      totalTiles (removePlayer rand g idp) = totalTiles g) ∧
    (totalTiles (startTurn g) = totalTiles g) ∧
    (getCurrentPlayerId g = some pid → mapGet g.players pid = some p →
      p.tiles.length + (g.board.flatMap (fun m => m.tiles)).length =
        g.turnStartHand.length +
          (g.turnStartBoard.flatMap (fun m => m.tiles)).length →
      totalTiles (undoTurn g).1 = totalTiles g ∧
      totalTiles (drawTile g pid).1 = totalTiles g) ∧
    ((playTiles g pid nb nh).2 = some e →
      totalTiles (playTiles g pid nb nh).1 = totalTiles g) ∧
    ((playTiles g pid nb nh).2 = none → mapGet g.players pid = some p →
      totalTiles (playTiles g pid nb nh).1 + p.tiles.length +
        (g.board.flatMap (fun m => m.tiles)).length =
      totalTiles g + nh.length + (nb.flatMap (fun m => m.tiles)).length) :=
  ⟨totalTiles_addPlayer g idp name,
   totalTiles_removePlayer rand g idp,
   totalTiles_startTurn g,
   fun hcur hget hsync => ⟨totalTiles_undoTurn g pid p hcur hget hsync,
     totalTiles_drawTile g pid p hcur hget hsync⟩,
   totalTiles_playTiles_rejected g pid nb nh e,
   fun hsucc hget => totalTiles_playTiles_success g pid p nb nh hget hsucc⟩

set_option maxRecDepth 1000000 in
/-- Witness for C4 (amended): each conserving operation, run on the
concrete two-player game, keeps the total unchanged. -/
theorem totalTiles_spec_witness :
    totalTiles (addPlayer gAB "C" "Cara") = totalTiles gAB ∧
    totalTiles (removePlayer randI gAB "B") = totalTiles gAB ∧
    totalTiles (startTurn gAB) = totalTiles gAB ∧
    totalTiles (undoTurn gStart).1 = totalTiles gStart ∧
    totalTiles (drawTile gStart "A").1 = totalTiles gStart ∧
    totalTiles (playTiles gStart "A" [meld30] handA).1 =
      totalTiles gStart := by
  have h1 := (totalTiles_spec gAB randI "C" "Cara" "A"
    ⟨"A", "Alice", handA, true, false⟩ [] [] "").1 (by decide)
  have h2 := (totalTiles_spec gAB randI "B" "x" "A"
    ⟨"A", "Alice", handA, true, false⟩ [] [] "").2.1
    (by unfold keysNodup; decide)
  have h3 := (totalTiles_spec gAB randI "B" "x" "A"
    ⟨"A", "Alice", handA, true, false⟩ [] [] "").2.2.1
  have h4 := (totalTiles_spec gStart randI "B" "x" "A"
    ⟨"A", "Alice", handA, true, false⟩ [] [] "").2.2.2.1
    (by decide) (by decide) (by decide)
  have h6 := (totalTiles_spec gStart randI "B" "x" "A"
    ⟨"A", "Alice", handA, true, false⟩ [meld30] handA
    "You must play at least one tile").2.2.2.2.1 (by decide)
  exact ⟨h1, h2, h3, h4.1, h4.2, h6⟩
